import Mathlib

/-!
# liboscore: sequence numbers and the replay window of a security context

A shallow embedding of `src/contextpair.c`: the accessors that dispatch on the
type of a security context, `oscore_context_take_seqno`, which encodes the sender
sequence number as a Partial IV, and `oscore_context_strikeout_requestid` with its
helpers `roll_window` and `advance_window`, which maintain the sliding replay
window.

Machine integers are modelled as `Nat` and `Int` with explicit reduction:

* `uint8_t` is `Fin 256`, and a store into a `uint8_t` goes through `to_uint8`;
* `uint32_t` (the replay window bitmap) is a `Nat`; every left shift is reduced
  modulo `2 ^ 32`, and the one shift whose count can reach the width 32, which C
  leaves undefined, takes its count modulo 32 (`shl_uint32`);
* `uint64_t` (the sender sequence number) is a `Nat`;
* `int64_t` (`numeric`, `necessary_shift`, the left edge) is an `Int`; every
  addition and subtraction on it goes through `to_int64`, the two's complement
  wrap-around;
* `size_t` is taken to be 64 bits wide (`to_size_t`).

`abort()` and a loop that does not finish are outcomes of their own (`Outcome`).
-/

namespace Oscore

/-- An unsigned byte, `uint8_t`. -/
abbrev uint8_t : Type := Fin 256

/-- Conversion of an unsigned value to `uint8_t` (reduction modulo 256). -/
def to_uint8 (x : Nat) : uint8_t := ⟨x % 256, Nat.mod_lt x (by decide)⟩

/-- Reduction of an unsigned value to `uint32_t`. -/
def to_uint32 (x : Nat) : Nat := x % 4294967296

/-- Conversion of an integer to `int64_t`: two's complement wrap-around into
`[-2^63, 2^63)`. -/
def to_int64 (x : Int) : Int :=
  (x + 9223372036854775808) % 18446744073709551616 - 9223372036854775808

/-- Conversion of an `int64_t` to `size_t`, taken to be 64 bits wide: reduction
modulo `2 ^ 64`. -/
def to_size_t (x : Int) : Nat := (x % 18446744073709551616).toNat

/-- `#define SEQNO_MAX INT64_C(0xffffffffff)` -/
def SEQNO_MAX : Nat := 0xffffffffff

/-- How a call ends: it returns, it calls `abort()`, or a loop in it did not
finish within the iterations the model grants it. -/
inductive Outcome (α : Type) where
  | returned (a : α)
  | aborted
  | unfinished
  deriving DecidableEq, Repr

/-- Sequencing of outcomes: the continuation runs only after a return. -/
def Outcome.bind {α β : Type} (x : Outcome α) (f : α → Outcome β) : Outcome β :=
  match x with
  | .returned a => f a
  | .aborted => .aborted
  | .unfinished => .unfinished

/-- The request identifier `oscore_requestid_t`: the five bytes `bytes[0]` to
`bytes[4]` of the zero-padded Partial IV, the number of significant bytes and the
first-use flag. -/
structure oscore_requestid_t where
  bytes0 : uint8_t
  bytes1 : uint8_t
  bytes2 : uint8_t
  bytes3 : uint8_t
  bytes4 : uint8_t
  used_bytes : Nat
  is_first_use : Bool
  deriving DecidableEq, Repr

/-- The role argument of the key and key-identifier accessors. -/
inductive oscore_context_role where
  | OSCORE_ROLE_RECIPIENT
  | OSCORE_ROLE_SENDER
  deriving DecidableEq, Repr

/-- The fields of `struct oscore_context_primitive` that `contextpair.c` reads
and writes. The struct is declared in `oscore/context_impl/primitive.h`; the
field names and their integer types are those the accesses of `contextpair.c`
use. -/
structure oscore_context_primitive where
  aeadalg : Nat
  common_iv : List uint8_t
  recipient_id : List uint8_t
  recipient_id_len : Nat
  sender_id : List uint8_t
  sender_id_len : Nat
  recipient_key : List uint8_t
  sender_key : List uint8_t
  sender_sequence_number : Nat
  replay_window_left_edge : Int
  replay_window : Nat
  deriving DecidableEq, Repr

/-- The `struct oscore_context_b1` of `oscore/context_impl/b1.h`: a primitive
context as first member, the upper limit to sequence numbers, and the Echo
value with the number of its populated bytes. -/
structure oscore_context_b1 where
  primitive : oscore_context_primitive
  high_sequence_number : Nat
  echo_value : List uint8_t
  echo_value_populated : Nat
  deriving DecidableEq, Repr

/-- The type tag of a security context. `contextpair.c` names
`OSCORE_CONTEXT_PRIMITIVE`; the tag of a B.1 context and any other value the
enumeration can hold are the remaining cases. -/
inductive oscore_context_type where
  | OSCORE_CONTEXT_PRIMITIVE
  | OSCORE_CONTEXT_B1
  | unrecognized (tag : Nat)
  deriving DecidableEq, Repr

/-- What the `data` pointer of a security context points to. -/
inductive oscore_context_data where
  | of_primitive (p : oscore_context_primitive)
  | of_b1 (b : oscore_context_b1)
  deriving DecidableEq, Repr

/-- The cast `struct oscore_context_primitive *primitive = secctx->data`: the
primitive context itself, or the first member of a B.1 context. -/
def oscore_context_data.primitive : oscore_context_data → oscore_context_primitive
  | .of_primitive p => p
  | .of_b1 b => b.primitive

/-- A write through the pointer obtained by the cast above. -/
def oscore_context_data.set_primitive (d : oscore_context_data)
    (p : oscore_context_primitive) : oscore_context_data :=
  match d with
  | .of_primitive _ => .of_primitive p
  | .of_b1 b => .of_b1 { b with primitive := p }

/-- The security context `oscore_context_t`: a type tag and the data. -/
structure oscore_context_t where
  type : oscore_context_type
  data : oscore_context_data
  deriving DecidableEq, Repr

/-- The accessor `oscore_context_get_aeadalg`. -/
def oscore_context_get_aeadalg (secctx : oscore_context_t) : Outcome Nat :=
  match secctx.type with
  | .OSCORE_CONTEXT_PRIMITIVE => .returned secctx.data.primitive.aeadalg
  | _ => .aborted

/-- The accessor `oscore_context_get_kid`: the values written to `*kid` and
`*kid_len`. -/
def oscore_context_get_kid (secctx : oscore_context_t) (role : oscore_context_role) :
    Outcome (List uint8_t × Nat) :=
  match secctx.type with
  | .OSCORE_CONTEXT_PRIMITIVE =>
    let primitive := secctx.data.primitive
    if role = .OSCORE_ROLE_RECIPIENT then
      .returned (primitive.recipient_id, primitive.recipient_id_len)
    else
      .returned (primitive.sender_id, primitive.sender_id_len)
  | _ => .aborted

/-- The accessor `oscore_context_get_commoniv`. -/
def oscore_context_get_commoniv (secctx : oscore_context_t) : Outcome (List uint8_t) :=
  match secctx.type with
  | .OSCORE_CONTEXT_PRIMITIVE => .returned secctx.data.primitive.common_iv
  | _ => .aborted

/-- The accessor `oscore_context_get_key`. -/
def oscore_context_get_key (secctx : oscore_context_t) (role : oscore_context_role) :
    Outcome (List uint8_t) :=
  match secctx.type with
  | .OSCORE_CONTEXT_PRIMITIVE =>
    let primitive := secctx.data.primitive
    if role = .OSCORE_ROLE_RECIPIENT then .returned primitive.recipient_key
    else .returned primitive.sender_key
  | _ => .aborted

/-- The conditional expression that `oscore_context_take_seqno` assigns to
`used_bytes`, over the bytes just stored. -/
def used_bytes_of (b0 b1 b2 b3 : uint8_t) : Nat :=
  if b0 ≠ 0 then 5 else if b1 ≠ 0 then 4 else if b2 ≠ 0 then 3 else if b3 ≠ 0 then 2 else 1

/-- The function `oscore_context_take_seqno`: the returned boolean, the context
and the request id after the call. The body holds no store to
`sender_sequence_number`, so the context is passed through as it is. -/
def oscore_context_take_seqno (secctx : oscore_context_t) (request_id : oscore_requestid_t) :
    Outcome (Bool × oscore_context_t × oscore_requestid_t) :=
  match secctx.type with
  | .OSCORE_CONTEXT_PRIMITIVE =>
    let primitive := secctx.data.primitive
    let seqno := primitive.sender_sequence_number
    if seqno ≥ SEQNO_MAX then
      .returned (false, secctx, request_id)
    else
      let b0 := to_uint8 ((seqno >>> 32) &&& 0xff)
      let b1 := to_uint8 ((seqno >>> 24) &&& 0xff)
      let b2 := to_uint8 ((seqno >>> 16) &&& 0xff)
      let b3 := to_uint8 ((seqno >>> 8) &&& 0xff)
      let b4 := to_uint8 (seqno &&& 0xff)
      .returned (true, secctx,
        { bytes0 := b0, bytes1 := b1, bytes2 := b2, bytes3 := b3, bytes4 := b4,
          used_bytes := used_bytes_of b0 b1 b2 b3,
          is_first_use := true })
  | _ => .aborted

/-- The `while (left_edge_is_seen)` loop of `roll_window`. The first argument
bounds the number of times the loop condition is tested; `none` means the bound
was reached before the condition became false. -/
def roll_window_loop : Nat → Bool → oscore_context_primitive → Option oscore_context_primitive
  | 0, _, _ => none
  | fuel + 1, left_edge_is_seen, ctx =>
    if left_edge_is_seen then
      roll_window_loop fuel (decide (ctx.replay_window >>> 31 ≠ 0))
        { ctx with
          replay_window := to_uint32 (ctx.replay_window <<< 1),
          replay_window_left_edge := to_int64 (ctx.replay_window_left_edge + 1) }
    else
      some ctx

/-- The number of tests of the loop condition granted to `roll_window`: a 32-bit
window is empty after 32 shifts, so the body runs at most 33 times. -/
def ROLL_FUEL : Nat := 34

/-- The helper `roll_window`: strike out the left edge number from the replay
window. -/
def roll_window (ctx : oscore_context_primitive) : Option oscore_context_primitive :=
  roll_window_loop ROLL_FUEL true ctx

/-- The left shift `w << n` of a `uint32_t` by a count `n` in `[0, 32]`. For
`n < 32` it is the shift by `n`, reduced to 32 bits. For `n = 32` C leaves the
shift undefined; the count is taken modulo 32, as the shift instruction of
x86-64 takes it, so the value is `w` itself, unshifted. -/
def shl_uint32 (w n : Nat) : Nat := to_uint32 (w <<< (n % 32))

/-- The helper `advance_window`, with `n` the `size_t` argument. The guard is
`n > 32`, so `n = 32` reaches `replay_window <<= n`, which is `shl_uint32`. -/
def advance_window (ctx : oscore_context_primitive) (n : Nat) : Option oscore_context_primitive :=
  let ctx1 := { ctx with replay_window_left_edge := to_int64 (ctx.replay_window_left_edge + n) }
  if n > 32 then
    some { ctx1 with replay_window := 0 }
  else
    let needs_roll := decide (ctx1.replay_window &&& to_uint32 (1 <<< (32 - n)) ≠ 0)
    let ctx2 := { ctx1 with replay_window := shl_uint32 ctx1.replay_window n }
    if needs_roll then roll_window ctx2 else some ctx2

/-- The array access `request_id->bytes[i]`, for `i` in `[0, 5)`. -/
def oscore_requestid_t.bytes (request_id : oscore_requestid_t) (i : Nat) : uint8_t :=
  match i with
  | 0 => request_id.bytes0
  | 1 => request_id.bytes1
  | 2 => request_id.bytes2
  | 3 => request_id.bytes3
  | _ => request_id.bytes4

/-- The big-endian value `numeric` that `oscore_context_strikeout_requestid`
decodes from the five bytes of a request id. -/
def numeric_of (request_id : oscore_requestid_t) : Int :=
  (request_id.bytes4.val : Int) +
  (request_id.bytes3.val : Int) * 2 ^ 8 +
  (request_id.bytes2.val : Int) * 2 ^ 16 +
  (request_id.bytes1.val : Int) * 2 ^ 24 +
  (request_id.bytes0.val : Int) * 2 ^ 32

/-- The body of the `OSCORE_CONTEXT_PRIMITIVE` case of
`oscore_context_strikeout_requestid`: the primitive context after the call and
the value assigned to `is_first_use`. A shift count that is negative in the
source is taken as 0. -/
def strikeout_primitive (primitive : oscore_context_primitive) (request_id : oscore_requestid_t) :
    Option (oscore_context_primitive × Bool) :=
  let numeric := numeric_of request_id
  let necessary_shift := to_int64 (to_int64 (numeric - primitive.replay_window_left_edge) - 32)
  let advanced :=
    if necessary_shift ≥ 1 then advance_window primitive (to_size_t necessary_shift)
    else some primitive
  match advanced with
  | none => none
  | some primitive =>
    if numeric < primitive.replay_window_left_edge then
      some (primitive, false)
    else if numeric = primitive.replay_window_left_edge then
      match roll_window primitive with
      | none => none
      | some primitive => some (primitive, true)
    else
      let mask := to_uint32
        (1 <<< (to_int64 (32 - to_int64 (numeric - primitive.replay_window_left_edge))).toNat)
      let is_first := decide (mask &&& primitive.replay_window = 0)
      some ({ primitive with replay_window := primitive.replay_window ||| mask }, is_first)

/-- The function `oscore_context_strikeout_requestid`: the context and the
request id after the call. -/
def oscore_context_strikeout_requestid (secctx : oscore_context_t)
    (request_id : oscore_requestid_t) : Outcome (oscore_context_t × oscore_requestid_t) :=
  match secctx.type with
  | .OSCORE_CONTEXT_PRIMITIVE =>
    match strikeout_primitive secctx.data.primitive request_id with
    | none => .unfinished
    | some (primitive, is_first) =>
      .returned ({ secctx with data := secctx.data.set_primitive primitive },
                 { request_id with is_first_use := is_first })
  | _ => .aborted

/-- A finite sequence of `oscore_context_strikeout_requestid` calls on one
context, one call per request id of the list in order: the context after the
last call and the request ids as the calls left them. -/
def strikeout_all (secctx : oscore_context_t) :
    List oscore_requestid_t → Outcome (oscore_context_t × List oscore_requestid_t)
  | [] => .returned (secctx, [])
  | request_id :: rest =>
    (oscore_context_strikeout_requestid secctx request_id).bind fun r =>
      (strikeout_all r.1 rest).bind fun rs => .returned (rs.1, r.2 :: rs.2)

/-- A finite sequence of `oscore_context_take_seqno` calls on one context, each
writing into a request id of its own: the context after the last call and, per
call, the returned boolean and the request id. -/
def take_seqno_all (secctx : oscore_context_t) :
    List oscore_requestid_t → Outcome (oscore_context_t × List (Bool × oscore_requestid_t))
  | [] => .returned (secctx, [])
  | request_id :: rest =>
    (oscore_context_take_seqno secctx request_id).bind fun r =>
      (take_seqno_all r.2.1 rest).bind fun rs => .returned (rs.1, (r.1, r.2.2) :: rs.2)

/-- The replay window bookkeeping: a number `m` is recorded as seen when it is
below the left edge, or when it is `left_edge + k + 1` for a `k` in `[0, 32)` and
bit `31 - k` of the bitmap is set. -/
def seen (ctx : oscore_context_primitive) (m : Int) : Prop :=
  m < ctx.replay_window_left_edge ∨
  (ctx.replay_window_left_edge < m ∧ m ≤ ctx.replay_window_left_edge + 32 ∧
    ctx.replay_window.testBit (31 - (m - ctx.replay_window_left_edge - 1)).toNat = true)

instance (ctx : oscore_context_primitive) (m : Int) : Decidable (seen ctx m) :=
  inferInstanceAs (Decidable (m < ctx.replay_window_left_edge ∨
    (ctx.replay_window_left_edge < m ∧ m ≤ ctx.replay_window_left_edge + 32 ∧
      ctx.replay_window.testBit (31 - (m - ctx.replay_window_left_edge - 1)).toNat = true)))

/-- A well-formed window state: a 32-bit bitmap and a left edge that is
non-negative and below `2 ^ 62` (which covers `[0, 2^40]`, the range a 40-bit
sequence number can move it through), so that no `int64_t` computation of the
replay window wraps around. -/
def window_ok (ctx : oscore_context_primitive) : Prop :=
  0 ≤ ctx.replay_window_left_edge ∧ ctx.replay_window_left_edge < 4611686018427387904 ∧
  ctx.replay_window < 4294967296

instance (ctx : oscore_context_primitive) : Decidable (window_ok ctx) :=
  inferInstanceAs (Decidable (0 ≤ ctx.replay_window_left_edge ∧
    ctx.replay_window_left_edge < 4611686018427387904 ∧ ctx.replay_window < 4294967296))

/-- A request id whose five bytes are the big-endian digits of `v`, for building
inputs; `used_bytes` and `is_first_use` are as a receiver leaves them before the
replay check. -/
def requestid_of_nat (v : Nat) : oscore_requestid_t :=
  { bytes0 := to_uint8 (v / 4294967296), bytes1 := to_uint8 (v / 16777216),
    bytes2 := to_uint8 (v / 65536), bytes3 := to_uint8 (v / 256), bytes4 := to_uint8 v,
    used_bytes := 5, is_first_use := false }

/-- A primitive context with empty key material, for building inputs. -/
def primitive_with (seqno : Nat) (left_edge : Int) (window : Nat) : oscore_context_primitive :=
  { aeadalg := 0, common_iv := [], recipient_id := [], recipient_id_len := 0,
    sender_id := [], sender_id_len := 0, recipient_key := [], sender_key := [],
    sender_sequence_number := seqno, replay_window_left_edge := left_edge,
    replay_window := window }

/-- A security context tagged `OSCORE_CONTEXT_PRIMITIVE` over `primitive_with`. -/
def context_with (seqno : Nat) (left_edge : Int) (window : Nat) : oscore_context_t :=
  { type := .OSCORE_CONTEXT_PRIMITIVE,
    data := .of_primitive (primitive_with seqno left_edge window) }

/-- The `while` loop of `roll_window` once more, with a counter of how often the
loop body has run; its first component is `roll_window_loop`. -/
def roll_window_loop_count :
    Nat → Bool → oscore_context_primitive → Option (oscore_context_primitive × Nat)
  | 0, _, _ => none
  | fuel + 1, left_edge_is_seen, ctx =>
    if left_edge_is_seen then
      (roll_window_loop_count fuel (decide (ctx.replay_window >>> 31 ≠ 0))
        { ctx with
          replay_window := to_uint32 (ctx.replay_window <<< 1),
          replay_window_left_edge := to_int64 (ctx.replay_window_left_edge + 1) }).map
        fun r => (r.1, r.2 + 1)
    else
      some (ctx, 0)

/-- The number of consecutive one bits of `w` from bit `n - 1` downwards. -/
def leading_ones_below (w : Nat) : Nat → Nat
  | 0 => 0
  | n + 1 => if w.testBit n then leading_ones_below w n + 1 else 0

/-- The number of leading one bits of a 32-bit bitmap, between 0 and 32. -/
def leading_ones (w : Nat) : Nat := leading_ones_below w 32

/-- The count-leading-ones formulation of the roll, as the specification words
it: with `c` the number of leading one bits of the bitmap, the left edge becomes
`left_edge + 1 + c` and the bitmap is shifted left by `c + 1` bits, zero-filled
and truncated to 32 bits. -/
def roll_window_clo (ctx : oscore_context_primitive) : oscore_context_primitive :=
  { ctx with
    replay_window_left_edge := ctx.replay_window_left_edge + 1 + leading_ones ctx.replay_window,
    replay_window := (ctx.replay_window <<< (leading_ones ctx.replay_window + 1)) % 2 ^ 32 }

/-- The state `advance_window` reaches for `n < 32` before it decides on the
roll: the left edge moved by `n` and the bitmap shifted left by `n` bits. -/
def slid (ctx : oscore_context_primitive) (n : Nat) : oscore_context_primitive :=
  { ctx with
    replay_window_left_edge := ctx.replay_window_left_edge + n,
    replay_window := to_uint32 (ctx.replay_window <<< n) }

/-- A security context tagged `OSCORE_CONTEXT_B1` over a B.1 context with empty
key material, for building inputs. -/
def b1_context_with (seqno high : Nat) : oscore_context_t :=
  { type := .OSCORE_CONTEXT_B1,
    data := .of_b1 { primitive := primitive_with seqno 0 0, high_sequence_number := high,
                     echo_value := [], echo_value_populated := 0 } }

/-- The request ids of the values `1, 2, ..., n` in this order. -/
def burst (n : Nat) : List oscore_requestid_t :=
  (List.range n).map fun i => requestid_of_nat (i + 1)

/-- The request ids of the values `a + 1, a + 2, ..., a + n` in this order. -/
def burst_from (a : Nat) : Nat → List oscore_requestid_t
  | 0 => []
  | n + 1 => requestid_of_nat (a + 1) :: burst_from (a + 1) n

/-- The set of numbers a window state records as used, as the specification
writes it: the numbers below the left edge, and `left_edge + k + 1` for every
`k` in `[0, 32)` whose bit `31 - k` of the bitmap is set. -/
def Seen (ctx : oscore_context_primitive) : Set Int :=
  {m | m < ctx.replay_window_left_edge} ∪
  {m | ∃ k : Nat, k < 32 ∧ m = ctx.replay_window_left_edge + k + 1 ∧
    ctx.replay_window.testBit (31 - k) = true}

/-- The shift counts of the `while` loop of `roll_window`, in the order the loop
applies them to the 32-bit window: per run of the body the right shift by 31 and
the left shift by 1. The control flow is that of `roll_window_loop`. -/
def roll_window_shifts : Nat → Bool → oscore_context_primitive → List Int
  | 0, _, _ => []
  | fuel + 1, left_edge_is_seen, ctx =>
    if left_edge_is_seen then
      31 :: 1 :: roll_window_shifts fuel (decide (ctx.replay_window >>> 31 ≠ 0))
        { ctx with
          replay_window := to_uint32 (ctx.replay_window <<< 1),
          replay_window_left_edge := to_int64 (ctx.replay_window_left_edge + 1) }
    else
      []

/-- The shift counts `advance_window` applies to 32-bit values, in order: for
`n <= 32` the count `32 - n` of the mask `((uint32_t)1) << (32 - n)`, the count
`n` of `replay_window <<= n`, and the counts of the roll when it is taken; none
for `n > 32`. The control flow is that of `advance_window`. -/
def advance_window_shifts (ctx : oscore_context_primitive) (n : Nat) : List Int :=
  let ctx1 := { ctx with replay_window_left_edge := to_int64 (ctx.replay_window_left_edge + n) }
  if n > 32 then
    []
  else
    let needs_roll := decide (ctx1.replay_window &&& to_uint32 (1 <<< (32 - n)) ≠ 0)
    let ctx2 := { ctx1 with replay_window := shl_uint32 ctx1.replay_window n }
    ((32 - n : Nat) : Int) :: (n : Int) ::
      (if needs_roll then roll_window_shifts ROLL_FUEL true ctx2 else [])

/-- The shift counts the `OSCORE_CONTEXT_PRIMITIVE` case of
`oscore_context_strikeout_requestid` applies to 32-bit values, in order: those of
the slide, then those of the roll for the edge value or the count
`32 - (numeric - left_edge)` of the mask. The control flow is that of
`strikeout_primitive`. -/
def strikeout_shifts (primitive : oscore_context_primitive) (request_id : oscore_requestid_t) :
    List Int :=
  let numeric := numeric_of request_id
  let necessary_shift := to_int64 (to_int64 (numeric - primitive.replay_window_left_edge) - 32)
  let slide :=
    if necessary_shift ≥ 1 then advance_window_shifts primitive (to_size_t necessary_shift)
    else []
  let advanced :=
    if necessary_shift ≥ 1 then advance_window primitive (to_size_t necessary_shift)
    else some primitive
  match advanced with
  | none => slide
  | some primitive =>
    if numeric < primitive.replay_window_left_edge then
      slide
    else if numeric = primitive.replay_window_left_edge then
      slide ++ roll_window_shifts ROLL_FUEL true primitive
    else
      slide ++ [to_int64 (32 - to_int64 (numeric - primitive.replay_window_left_edge))]

/-! ## Arithmetic of the 32-bit window -/

theorem to_uint32_lt (x : Nat) : to_uint32 x < 4294967296 :=
  Nat.mod_lt x (by decide)

theorem testBit_to_uint32_shiftLeft (w n i : Nat) :
    (to_uint32 (w <<< n)).testBit i = (decide (i < 32) && (decide (n ≤ i) && w.testBit (i - n))) := by
  have h : (4294967296 : Nat) = 2 ^ 32 := by norm_num
  unfold to_uint32
  rw [h, Nat.testBit_mod_two_pow, Nat.testBit_shiftLeft]

theorem to_uint32_one_shiftLeft (k : Nat) (hk : k < 32) : to_uint32 (1 <<< k) = 2 ^ k := by
  unfold to_uint32
  rw [Nat.one_shiftLeft]
  apply Nat.mod_eq_of_lt
  calc 2 ^ k < 2 ^ 32 := Nat.pow_lt_pow_right (by decide) hk
    _ = 4294967296 := by norm_num

theorem and_two_pow_ne_zero_iff (w k : Nat) : w &&& 2 ^ k ≠ 0 ↔ w.testBit k = true := by
  constructor
  · intro h
    by_contra hb
    apply h
    apply Nat.eq_of_testBit_eq
    intro i
    rw [Nat.testBit_and, Nat.testBit_two_pow, Nat.zero_testBit]
    by_cases hik : k = i
    · subst hik; simp [hb]
    · simp [hik]
  · intro h h0
    have := congrArg (fun x => Nat.testBit x k) h0
    simp [Nat.testBit_and, Nat.testBit_two_pow_self, h] at this

theorem shiftRight_31_ne_zero_iff (w : Nat) (hw : w < 4294967296) :
    w >>> 31 ≠ 0 ↔ w.testBit 31 = true := by
  rw [Nat.shiftRight_eq_div_pow]
  have h1 : w.testBit 31 = decide (w / 2 ^ 31 % 2 = 1) := by
    rw [Nat.testBit_to_div_mod]
  rw [h1]
  simp only [decide_eq_true_eq]
  have : w / 2 ^ 31 < 2 := by
    apply Nat.div_lt_of_lt_mul
    norm_num
    omega
  omega

theorem or_two_pow_of_testBit (w k : Nat) (h : w.testBit k = true) : w ||| 2 ^ k = w := by
  apply Nat.eq_of_testBit_eq
  intro i
  rw [Nat.testBit_or, Nat.testBit_two_pow]
  by_cases hik : k = i
  · subst hik; simp [h]
  · simp [hik]

theorem or_two_pow_lt (w k : Nat) (hw : w < 4294967296) (hk : k < 32) :
    w ||| 2 ^ k < 4294967296 := by
  have h : (4294967296 : Nat) = 2 ^ 32 := by norm_num
  rw [h] at hw ⊢
  exact Nat.or_lt_two_pow hw (Nat.pow_lt_pow_right (by decide) hk)

theorem to_int64_eq (x : Int) (h1 : -9223372036854775808 ≤ x) (h2 : x < 9223372036854775808) :
    to_int64 x = x := by
  unfold to_int64
  omega

theorem numeric_of_bounds (r : oscore_requestid_t) :
    0 ≤ numeric_of r ∧ numeric_of r < 1099511627776 := by
  unfold numeric_of
  have h0 := r.bytes0.isLt
  have h1 := r.bytes1.isLt
  have h2 := r.bytes2.isLt
  have h3 := r.bytes3.isLt
  have h4 := r.bytes4.isLt
  constructor <;> omega

theorem shl_uint32_of_lt (w n : Nat) (h : n < 32) : shl_uint32 w n = to_uint32 (w <<< n) := by
  unfold shl_uint32
  rw [Nat.mod_eq_of_lt h]

theorem shl_uint32_32 (w : Nat) (hw : w < 4294967296) : shl_uint32 w 32 = w := by
  unfold shl_uint32 to_uint32
  simp only [Nat.mod_self, Nat.shiftLeft_zero]
  exact Nat.mod_eq_of_lt hw

theorem shl_uint32_lt (w n : Nat) : shl_uint32 w n < 4294967296 :=
  to_uint32_lt _

/-! ## What the window records after a shift, a roll and an advance -/

theorem seen_shift (ctx : oscore_context_primitive) (n : Nat) (m : Int) :
    seen { ctx with
           replay_window := to_uint32 (ctx.replay_window <<< n),
           replay_window_left_edge := ctx.replay_window_left_edge + n } m ↔
      (seen ctx m ∨ m < ctx.replay_window_left_edge + n) ∧ m ≠ ctx.replay_window_left_edge + n := by
  unfold seen
  simp only [testBit_to_uint32_shiftLeft]
  rcases lt_trichotomy m (ctx.replay_window_left_edge + n) with h | h | h
  · constructor
    · intro _
      exact ⟨Or.inr h, by omega⟩
    · intro _
      exact Or.inl h
  · constructor
    · intro h1
      omega
    · intro h1
      omega
  · by_cases h32 : m ≤ ctx.replay_window_left_edge + 32
    · have hidx : (31 - (m - (ctx.replay_window_left_edge + n) - 1)).toNat - n
          = (31 - (m - ctx.replay_window_left_edge - 1)).toNat := by omega
      have h1 : (31 - (m - (ctx.replay_window_left_edge + n) - 1)).toNat < 32 := by omega
      have h2 : n ≤ (31 - (m - (ctx.replay_window_left_edge + n) - 1)).toNat := by omega
      simp only [hidx, h1, h2, decide_True, Bool.true_and]
      constructor
      · rintro (h3 | ⟨_, _, h5⟩)
        · omega
        · exact ⟨Or.inl (Or.inr ⟨by omega, h32, h5⟩), by omega⟩
      · rintro ⟨(h3 | ⟨_, _, h5⟩) | h3, _⟩
        · omega
        · exact Or.inr ⟨h, by omega, h5⟩
        · omega
    · constructor
      · rintro (h3 | ⟨_, h4, h5⟩)
        · omega
        · have h2 : ¬ n ≤ (31 - (m - (ctx.replay_window_left_edge + n) - 1)).toNat := by omega
          simp only [h2, decide_False, Bool.false_and, Bool.and_false] at h5
          exact absurd h5 (by decide)
      · rintro ⟨(h3 | ⟨_, h4, _⟩) | h3, _⟩ <;> omega

theorem roll_window_loop_spec (k : Nat) :
    ∀ (fuel : Nat) (ctx : oscore_context_primitive),
      k + 1 ≤ fuel → 1 ≤ k →
      -9223372036854775808 ≤ ctx.replay_window_left_edge →
      ctx.replay_window_left_edge + k < 9223372036854775808 →
      ctx.replay_window < 4294967296 →
      (∀ i, i + k < 33 → ctx.replay_window.testBit i = false) →
      ∃ ctx', roll_window_loop fuel true ctx = some ctx' ∧
        ctx.replay_window_left_edge < ctx'.replay_window_left_edge ∧
        ctx'.replay_window_left_edge ≤ ctx.replay_window_left_edge + k ∧
        ctx'.replay_window < 4294967296 ∧
        (∀ m, seen ctx' m ↔ seen ctx m ∨ m = ctx.replay_window_left_edge) ∧
        ctx' = { ctx with
                 replay_window_left_edge := ctx'.replay_window_left_edge,
                 replay_window := ctx'.replay_window } := by
  induction k with
  | zero => intro _ _ _ h; omega
  | succ k ih =>
    intro fuel ctx hfuel _ hlo hhi hw hlow
    obtain ⟨f, rfl⟩ : ∃ f, fuel = f + 1 := ⟨fuel - 1, by omega⟩
    have hL : to_int64 (ctx.replay_window_left_edge + 1) = ctx.replay_window_left_edge + 1 :=
      to_int64_eq _ (by omega) (by omega)
    have hstep := seen_shift ctx 1
    simp only [Nat.cast_one] at hstep
    rw [roll_window_loop, if_pos rfl, hL]
    by_cases hb : ctx.replay_window >>> 31 ≠ 0
    · have hbit : ctx.replay_window.testBit 31 = true := (shiftRight_31_ne_zero_iff _ hw).1 hb
      have hk : 1 ≤ k := by
        by_contra hk0
        have := hlow 31 (by omega)
        rw [this] at hbit
        exact absurd hbit (by decide)
      rw [decide_eq_true hb]
      obtain ⟨ctx', hrun, h1, h2, h3, h4, h5⟩ := ih f
        { ctx with
          replay_window := to_uint32 (ctx.replay_window <<< 1),
          replay_window_left_edge := ctx.replay_window_left_edge + 1 }
        (by omega) hk (by simp only; omega) (by simp only; omega) (to_uint32_lt _)
        (by
          intro i hi
          simp only [testBit_to_uint32_shiftLeft]
          by_cases hi0 : 1 ≤ i
          · rw [hlow (i - 1) (by omega)]; simp
          · simp [hi0])
      refine ⟨ctx', hrun, ?_, ?_, h3, ?_, ?_⟩
      · simp only at h1; omega
      · simp only at h2; omega
      · intro m
        rw [h4 m, hstep m]
        simp only
        have hs : seen ctx (ctx.replay_window_left_edge + 1) := by
          right
          refine ⟨by omega, by omega, ?_⟩
          have : (31 - (ctx.replay_window_left_edge + 1 - ctx.replay_window_left_edge - 1)).toNat
              = 31 := by omega
          rw [this]; exact hbit
        constructor
        · rintro (⟨h6 | h6, _⟩ | h6)
          · exact Or.inl h6
          · by_cases hm : m = ctx.replay_window_left_edge
            · exact Or.inr hm
            · exact Or.inl (Or.inl (by omega))
          · rw [h6]; exact Or.inl hs
        · rintro (h6 | h6)
          · by_cases hm : m = ctx.replay_window_left_edge + 1
            · exact Or.inr hm
            · exact Or.inl ⟨Or.inl h6, hm⟩
          · exact Or.inl ⟨Or.inr (by omega), by omega⟩
      · rw [h5]
    · have hbit : ctx.replay_window.testBit 31 = false := by
        by_contra hne
        exact hb ((shiftRight_31_ne_zero_iff _ hw).2 (by simpa using hne))
      rw [decide_eq_false hb]
      obtain ⟨f', rfl⟩ : ∃ f', f = f' + 1 := ⟨f - 1, by omega⟩
      rw [roll_window_loop, if_neg (by decide)]
      refine ⟨_, rfl, by simp only; omega, by simp only; omega, to_uint32_lt _, ?_, rfl⟩
      intro m
      rw [hstep m]
      have hs : ¬ seen ctx (ctx.replay_window_left_edge + 1) := by
        rintro (h6 | ⟨_, _, h6⟩)
        · omega
        · have : (31 - (ctx.replay_window_left_edge + 1 - ctx.replay_window_left_edge - 1)).toNat
              = 31 := by omega
          rw [this, hbit] at h6
          exact absurd h6 (by decide)
      constructor
      · rintro ⟨h6 | h6, _⟩
        · exact Or.inl h6
        · by_cases hm : m = ctx.replay_window_left_edge
          · exact Or.inr hm
          · exact Or.inl (Or.inl (by omega))
      · rintro (h6 | h6)
        · refine ⟨Or.inl h6, ?_⟩
          intro hm
          rw [hm] at h6
          exact hs h6
        · exact ⟨Or.inr (by omega), by omega⟩

theorem seen_offset_iff (ctx : oscore_context_primitive) (d : Nat) (h1 : 1 ≤ d) (h2 : d ≤ 32) :
    seen ctx (ctx.replay_window_left_edge + d) ↔ ctx.replay_window.testBit (32 - d) = true := by
  unfold seen
  have hidx : (31 - (ctx.replay_window_left_edge + d - ctx.replay_window_left_edge - 1)).toNat
      = 32 - d := by omega
  rw [hidx]
  constructor
  · rintro (h | ⟨_, _, h⟩)
    · omega
    · exact h
  · intro h
    exact Or.inr ⟨by omega, by omega, h⟩

theorem roll_window_spec (ctx : oscore_context_primitive) (k : Nat) (hk1 : 1 ≤ k) (hk : k ≤ 33)
    (hlo : -9223372036854775808 ≤ ctx.replay_window_left_edge)
    (hhi : ctx.replay_window_left_edge + k < 9223372036854775808)
    (hw : ctx.replay_window < 4294967296)
    (hlow : ∀ i, i + k < 33 → ctx.replay_window.testBit i = false) :
    ∃ ctx', roll_window ctx = some ctx' ∧
      ctx.replay_window_left_edge < ctx'.replay_window_left_edge ∧
      ctx'.replay_window_left_edge ≤ ctx.replay_window_left_edge + k ∧
      ctx'.replay_window < 4294967296 ∧
      (∀ m, seen ctx' m ↔ seen ctx m ∨ m = ctx.replay_window_left_edge) ∧
      ctx' = { ctx with
               replay_window_left_edge := ctx'.replay_window_left_edge,
               replay_window := ctx'.replay_window } := by
  unfold roll_window
  exact roll_window_loop_spec k ROLL_FUEL ctx (by unfold ROLL_FUEL; omega) hk1 hlo hhi hw hlow

theorem not_seen_left_edge (p : oscore_context_primitive) :
    ¬ seen p p.replay_window_left_edge := by
  rintro (h | ⟨h, _, _⟩) <;> omega

theorem seen_of_lt (p : oscore_context_primitive) (m : Int)
    (h : m < p.replay_window_left_edge) : seen p m := Or.inl h

/-- The slide of `advance_window` by any `n >= 1` other than 32: the window
records afterwards what it recorded before and everything below
`left_edge + n`. -/
theorem advance_window_spec (ctx : oscore_context_primitive) (n : Nat) (hn : 1 ≤ n)
    (hn32 : n ≠ 32)
    (hlo : -9223372036854775808 ≤ ctx.replay_window_left_edge)
    (hhi : ctx.replay_window_left_edge + n + 32 < 9223372036854775808) :
    ∃ ctx', advance_window ctx n = some ctx' ∧
      ctx.replay_window_left_edge + n ≤ ctx'.replay_window_left_edge ∧
      ctx'.replay_window_left_edge ≤ ctx.replay_window_left_edge + n + 32 ∧
      ctx'.replay_window < 4294967296 ∧
      (∀ m, seen ctx' m ↔ seen ctx m ∨ m < ctx.replay_window_left_edge + n) ∧
      ctx' = { ctx with
               replay_window_left_edge := ctx'.replay_window_left_edge,
               replay_window := ctx'.replay_window } := by
  have hL : to_int64 (ctx.replay_window_left_edge + n) = ctx.replay_window_left_edge + n :=
    to_int64_eq _ (by omega) (by omega)
  unfold advance_window
  simp only [hL]
  by_cases hbig : n > 32
  · rw [if_pos hbig]
    refine ⟨_, rfl, by simp only; omega, by simp only; omega, by simp only; omega, ?_, rfl⟩
    intro m
    unfold seen
    simp only [Nat.zero_testBit]
    constructor
    · rintro (h | ⟨_, _, h⟩)
      · exact Or.inr h
      · exact absurd h (by decide)
    · rintro ((h | ⟨_, h, _⟩) | h)
      · exact Or.inl (by omega)
      · exact Or.inl (by omega)
      · exact Or.inl h
  · rw [if_neg hbig, shl_uint32_of_lt _ _ (by omega)]
    have hmask : to_uint32 (1 <<< (32 - n)) = 2 ^ (32 - n) :=
      to_uint32_one_shiftLeft _ (by omega)
    have hseen : seen ctx (ctx.replay_window_left_edge + n) ↔
        ctx.replay_window.testBit (32 - n) = true := seen_offset_iff ctx n hn (by omega)
    have hstep := seen_shift ctx n
    rw [hmask]
    by_cases hb : ctx.replay_window &&& 2 ^ (32 - n) ≠ 0
    · have hbit := (and_two_pow_ne_zero_iff _ _).1 hb
      rw [decide_eq_true hb, if_pos rfl]
      obtain ⟨ctx', hrun, h1, h2, h3, h4, h5⟩ := roll_window_spec
        { ctx with
          replay_window_left_edge := ctx.replay_window_left_edge + n,
          replay_window := to_uint32 (ctx.replay_window <<< n) }
        (33 - n) (by omega) (by omega) (by simp only; omega) (by simp only; omega)
        (to_uint32_lt _)
        (by
          intro i hi
          simp only [testBit_to_uint32_shiftLeft]
          have : ¬ n ≤ i := by omega
          simp [this])
      refine ⟨ctx', hrun, ?_, ?_, h3, ?_, ?_⟩
      · simp only at h1; omega
      · simp only at h2; omega
      · intro m
        rw [h4 m, hstep m]
        simp only
        constructor
        · rintro (⟨h6, _⟩ | h6)
          · exact h6
          · rw [h6]; exact Or.inl (hseen.2 hbit)
        · rintro h6
          by_cases hm : m = ctx.replay_window_left_edge + n
          · exact Or.inr hm
          · exact Or.inl ⟨h6, hm⟩
      · rw [h5]
    · have hbit : ¬ ctx.replay_window.testBit (32 - n) = true := fun h =>
        hb ((and_two_pow_ne_zero_iff _ _).2 h)
      rw [decide_eq_false hb, if_neg (by decide)]
      refine ⟨_, rfl, by simp only; omega, by simp only; omega, to_uint32_lt _, ?_, rfl⟩
      intro m
      rw [hstep m]
      constructor
      · rintro ⟨h6, _⟩
        exact h6
      · rintro h6
        refine ⟨h6, ?_⟩
        intro hm
        rw [hm] at h6
        rcases h6 with h6 | h6
        · exact hbit (hseen.1 h6)
        · omega

/-- The slide of `advance_window` by 32, where the bitmap stays unshifted: the
window still records what it recorded before and everything below
`left_edge + 32`, and nothing above `left_edge + 64`. -/
theorem advance_window_spec_32 (ctx : oscore_context_primitive)
    (hlo : -9223372036854775808 ≤ ctx.replay_window_left_edge)
    (hhi : ctx.replay_window_left_edge + 65 < 9223372036854775808)
    (hw : ctx.replay_window < 4294967296) :
    ∃ ctx', advance_window ctx 32 = some ctx' ∧
      ctx.replay_window_left_edge + 32 ≤ ctx'.replay_window_left_edge ∧
      ctx'.replay_window_left_edge ≤ ctx.replay_window_left_edge + 65 ∧
      ctx'.replay_window < 4294967296 ∧
      (∀ m, seen ctx m → seen ctx' m) ∧
      (∀ m, m < ctx.replay_window_left_edge + 32 → seen ctx' m) ∧
      (∀ m, seen ctx' m → m ≤ ctx.replay_window_left_edge + 64) ∧
      ctx' = { ctx with
               replay_window_left_edge := ctx'.replay_window_left_edge,
               replay_window := ctx'.replay_window } := by
  have hL : to_int64 (ctx.replay_window_left_edge + (32 : Nat))
      = ctx.replay_window_left_edge + 32 := by
    rw [to_int64_eq _ (by omega) (by omega)]
    rfl
  have hbit0 := seen_offset_iff ctx 32 (by omega) (by omega)
  simp only [Nat.sub_self, Nat.cast_ofNat] at hbit0
  have hupper : ∀ m, seen { ctx with
      replay_window_left_edge := ctx.replay_window_left_edge + 32,
      replay_window := ctx.replay_window } m → m ≤ ctx.replay_window_left_edge + 64 := by
    rintro m (h | ⟨_, h, _⟩)
    · simp only at h; omega
    · simp only at h; omega
  unfold advance_window
  simp only [hL, shl_uint32_32 _ hw]
  rw [if_neg (by omega)]
  have hmask : to_uint32 (1 <<< (32 - 32)) = 2 ^ 0 := to_uint32_one_shiftLeft _ (by omega)
  rw [hmask]
  by_cases hb : ctx.replay_window &&& 2 ^ 0 ≠ 0
  · have hbit := (and_two_pow_ne_zero_iff _ _).1 hb
    rw [decide_eq_true hb, if_pos rfl]
    obtain ⟨ctx', hrun, h1, h2, h3, h4, h5⟩ := roll_window_spec
      { ctx with
        replay_window_left_edge := ctx.replay_window_left_edge + 32,
        replay_window := ctx.replay_window }
      33 (by omega) (by omega) (by simp only; omega) (by simp only; omega) hw
      (by intro i hi; omega)
    simp only at h1 h2 h4
    refine ⟨ctx', hrun, by omega, by omega, h3, ?_, ?_, ?_, ?_⟩
    · intro m hm
      rw [h4 m]
      by_cases h32 : m = ctx.replay_window_left_edge + 32
      · exact Or.inr h32
      · left
        rcases hm with h | ⟨_, h, _⟩
        · exact Or.inl (by simp only; omega)
        · exact Or.inl (by simp only; omega)
    · intro m hm
      rw [h4 m]
      exact Or.inl (Or.inl hm)
    · intro m hm
      rcases (h4 m).1 hm with h | h
      · exact hupper m h
      · omega
    · rw [h5]
  · have hbit : ¬ ctx.replay_window.testBit 0 = true := fun h =>
      hb ((and_two_pow_ne_zero_iff _ _).2 h)
    rw [decide_eq_false hb, if_neg (by decide)]
    refine ⟨_, rfl, by simp only; omega, by simp only; omega, hw, ?_, ?_, hupper, rfl⟩
    · intro m hm
      have h32 : m ≠ ctx.replay_window_left_edge + 32 := by
        intro h
        rw [h] at hm
        exact hbit (hbit0.1 hm)
      rcases hm with h | ⟨_, h, _⟩
      · exact Or.inl (by simp only; omega)
      · exact Or.inl (by simp only; omega)
    · intro m hm
      exact Or.inl hm

/-- The slide of `advance_window` by any `n >= 1`: nothing recorded is forgotten,
everything below `left_edge + n` is recorded, and nothing new above
`left_edge + n + 32`. -/
theorem advance_window_weak (ctx : oscore_context_primitive) (n : Nat) (hn : 1 ≤ n)
    (hlo : -9223372036854775808 ≤ ctx.replay_window_left_edge)
    (hhi : ctx.replay_window_left_edge + n + 33 < 9223372036854775808)
    (hw : ctx.replay_window < 4294967296) :
    ∃ ctx', advance_window ctx n = some ctx' ∧
      ctx.replay_window_left_edge + n ≤ ctx'.replay_window_left_edge ∧
      ctx'.replay_window_left_edge ≤ ctx.replay_window_left_edge + n + 33 ∧
      ctx'.replay_window < 4294967296 ∧
      (∀ m, seen ctx m → seen ctx' m) ∧
      (∀ m, m < ctx.replay_window_left_edge + n → seen ctx' m) ∧
      (∀ m, seen ctx' m → seen ctx m ∨ m ≤ ctx.replay_window_left_edge + n + 32) ∧
      ctx' = { ctx with
               replay_window_left_edge := ctx'.replay_window_left_edge,
               replay_window := ctx'.replay_window } := by
  by_cases hn32 : n = 32
  · subst hn32
    obtain ⟨ctx', hrun, h1, h2, h3, h4, h5, h6, h7⟩ := advance_window_spec_32 ctx hlo
      (by omega) hw
    refine ⟨ctx', hrun, by push_cast; omega, by push_cast; omega, h3, h4, ?_, ?_, h7⟩
    · intro m hm
      exact h5 m (by push_cast at hm; omega)
    · intro m hm
      have := h6 m hm
      exact Or.inr (by push_cast; omega)
  · obtain ⟨ctx', hrun, h1, h2, h3, h4, h5⟩ := advance_window_spec ctx n hn hn32 hlo (by omega)
    refine ⟨ctx', hrun, h1, by omega, h3, ?_, ?_, ?_, h5⟩
    · intro m hm
      exact (h4 m).2 (Or.inl hm)
    · intro m hm
      exact (h4 m).2 (Or.inr hm)
    · intro m hm
      rcases (h4 m).1 hm with h | h
      · exact Or.inl h
      · exact Or.inr (by omega)

theorem seen_mark (ctx : oscore_context_primitive) (d : Nat) (h1 : 1 ≤ d) (h2 : d ≤ 32) (m : Int) :
    seen { ctx with replay_window := ctx.replay_window ||| 2 ^ (32 - d) } m ↔
      seen ctx m ∨ m = ctx.replay_window_left_edge + d := by
  unfold seen
  simp only [Nat.testBit_or, Nat.testBit_two_pow, Bool.or_eq_true, decide_eq_true_eq]
  constructor
  · rintro (h | ⟨h3, h4, h5 | h5⟩)
    · exact Or.inl (Or.inl h)
    · exact Or.inl (Or.inr ⟨h3, h4, h5⟩)
    · exact Or.inr (by omega)
  · rintro ((h | ⟨h3, h4, h5⟩) | h)
    · exact Or.inl h
    · exact Or.inr ⟨h3, h4, Or.inl h5⟩
    · exact Or.inr ⟨by omega, by omega, Or.inr (by omega)⟩

/-- The classification that follows the slide in `strikeout_primitive`, for a
number that is at most 32 above the left edge. -/
theorem strikeout_tail_spec (p : oscore_context_primitive) (numeric : Int)
    (hle : numeric ≤ p.replay_window_left_edge + 32)
    (hlo : 0 ≤ p.replay_window_left_edge)
    (hhi : p.replay_window_left_edge < 4611686018427387904 + 40)
    (hw : p.replay_window < 4294967296) :
    ∃ p',
      (if numeric < p.replay_window_left_edge then
          some (p, false)
        else if numeric = p.replay_window_left_edge then
          match roll_window p with
          | none => none
          | some primitive => some (primitive, true)
        else
          let mask := to_uint32
            (1 <<< (to_int64 (32 - to_int64 (numeric - p.replay_window_left_edge))).toNat)
          let is_first := decide (mask &&& p.replay_window = 0)
          some ({ p with replay_window := p.replay_window ||| mask }, is_first))
        = some (p', decide (¬ seen p numeric)) ∧
      p.replay_window_left_edge ≤ p'.replay_window_left_edge ∧
      p'.replay_window_left_edge ≤ max p.replay_window_left_edge (numeric + 33) ∧
      p'.replay_window < 4294967296 ∧
      (∀ m, seen p' m ↔ seen p m ∨ m = numeric) ∧
      (seen p numeric → p' = p) ∧
      p' = { p with
             replay_window_left_edge := p'.replay_window_left_edge,
             replay_window := p'.replay_window } := by
  by_cases hlt : numeric < p.replay_window_left_edge
  · rw [if_pos hlt]
    have hs : seen p numeric := Or.inl hlt
    refine ⟨p, ?_, le_refl _, le_max_left _ _, hw, ?_, fun _ => rfl, rfl⟩
    · simp [hs]
    · intro m
      constructor
      · exact fun h => Or.inl h
      · rintro (h | h)
        · exact h
        · rw [h]; exact hs
  · rw [if_neg hlt]
    by_cases heq : numeric = p.replay_window_left_edge
    · rw [if_pos heq]
      have hs : ¬ seen p numeric := by
        rintro (h | ⟨h, _, _⟩) <;> omega
      obtain ⟨p', hrun, h1, h2, h3, h4, h5⟩ := roll_window_spec p 33 (by omega) (by omega)
        (by omega) (by omega) hw (by intro i hi; omega)
      rw [hrun]
      refine ⟨p', ?_, le_of_lt h1, ?_, h3, ?_, fun h => absurd h hs, h5⟩
      · simp [hs]
      · exact le_trans h2 (by rw [heq]; exact le_max_right _ _)
      · intro m
        rw [h4 m, heq]
    · rw [if_neg heq]
      obtain ⟨d, hd⟩ : ∃ d : Nat, numeric = p.replay_window_left_edge + d :=
        ⟨(numeric - p.replay_window_left_edge).toNat, by omega⟩
      have hd1 : 1 ≤ d := by omega
      have hd2 : d ≤ 32 := by omega
      have hcount : (to_int64 (32 - to_int64 (numeric - p.replay_window_left_edge))).toNat
          = 32 - d := by
        rw [to_int64_eq (numeric - p.replay_window_left_edge) (by omega) (by omega),
          to_int64_eq _ (by omega) (by omega)]
        omega
      have hmask : to_uint32 (1 <<< (32 - d)) = 2 ^ (32 - d) :=
        to_uint32_one_shiftLeft _ (by omega)
      have hseen : seen p numeric ↔ p.replay_window.testBit (32 - d) = true := by
        rw [hd]; exact seen_offset_iff p d hd1 hd2
      simp only [hcount, hmask]
      refine ⟨{ p with replay_window := p.replay_window ||| 2 ^ (32 - d) }, ?_, le_refl _,
        le_max_left _ _, or_two_pow_lt _ (32 - d) hw (by omega), ?_, ?_, rfl⟩
      · congr 2
        rw [Nat.and_comm]
        by_cases hb : p.replay_window.testBit (32 - d) = true
        · have h1 : p.replay_window &&& 2 ^ (32 - d) ≠ 0 := (and_two_pow_ne_zero_iff _ _).2 hb
          have h2 : seen p numeric := hseen.2 hb
          simp [h1, h2]
        · have h1 : ¬ p.replay_window &&& 2 ^ (32 - d) ≠ 0 := fun h =>
            hb ((and_two_pow_ne_zero_iff _ _).1 h)
          have h2 : ¬ seen p numeric := fun h => hb (hseen.1 h)
          have h3 : p.replay_window &&& 2 ^ (32 - d) = 0 := by
            by_contra h; exact h1 h
          simp [h3, h2]
      · intro m
        rw [hd]
        exact seen_mark p d hd1 hd2 m
      · intro hs
        rw [or_two_pow_of_testBit _ _ (hseen.1 hs)]

/-- The specification of `strikeout_primitive` over `seen`, for every number
other than `left_edge + 64`: the call returns, the flag is first use exactly for
a number not recorded as seen, the number and everything below `numeric - 32` is
recorded afterwards and nothing is forgotten, the left edge does not decrease,
and a duplicate changes nothing. -/
theorem strikeout_primitive_spec (p : oscore_context_primitive) (r : oscore_requestid_t)
    (hok : window_ok p) (h64 : numeric_of r ≠ p.replay_window_left_edge + 64) :
    ∃ p',
      strikeout_primitive p r = some (p', decide (¬ seen p (numeric_of r))) ∧
      window_ok p' ∧
      p.replay_window_left_edge ≤ p'.replay_window_left_edge ∧
      (∀ m, seen p' m ↔ seen p m ∨ m = numeric_of r ∨ m < numeric_of r - 32) ∧
      (seen p (numeric_of r) → p' = p) ∧
      p' = { p with
             replay_window_left_edge := p'.replay_window_left_edge,
             replay_window := p'.replay_window } := by
  obtain ⟨hlo, hhi, hw⟩ := hok
  obtain ⟨hn0, hn1⟩ := numeric_of_bounds r
  have hns : to_int64 (to_int64 (numeric_of r - p.replay_window_left_edge) - 32)
      = numeric_of r - p.replay_window_left_edge - 32 := by
    rw [to_int64_eq (numeric_of r - p.replay_window_left_edge) (by omega) (by omega),
      to_int64_eq _ (by omega) (by omega)]
  unfold strikeout_primitive
  simp only [hns]
  by_cases hshift : numeric_of r - p.replay_window_left_edge - 32 ≥ 1
  · rw [if_pos hshift]
    have hn : ((to_size_t (numeric_of r - p.replay_window_left_edge - 32) : Nat) : Int)
        = numeric_of r - p.replay_window_left_edge - 32 := by
      unfold to_size_t; omega
    obtain ⟨p1, hadv, h1, h2, h3, h4, h5⟩ := advance_window_spec p
      (to_size_t (numeric_of r - p.replay_window_left_edge - 32))
      (by omega) (by omega) (by omega) (by omega)
    rw [hn] at h1 h2 h4
    rw [hadv]
    simp only
    have hs : ¬ seen p (numeric_of r) := by
      rintro (h | ⟨_, h, _⟩) <;> omega
    have hs1 : ¬ seen p1 (numeric_of r) := by
      rw [h4]
      rintro (h | h)
      · exact hs h
      · omega
    have hL1 : p1.replay_window_left_edge ≤ numeric_of r := by
      by_contra h
      exact hs1 (Or.inl (by omega))
    obtain ⟨p', hrun, g1, g2, g3, g4, g5, g6⟩ := strikeout_tail_spec p1 (numeric_of r)
      (by omega) (by omega) (by omega) h3
    rw [hrun]
    refine ⟨p', ?_, ⟨by omega, ?_, g3⟩, by omega, ?_, fun h => absurd h hs, ?_⟩
    · simp [hs, hs1]
    · have := max_le_iff.1 (le_refl (max p1.replay_window_left_edge (numeric_of r + 33)))
      rcases le_total p1.replay_window_left_edge (numeric_of r + 33) with h | h
      · rw [max_eq_right h] at g2; omega
      · rw [max_eq_left h] at g2; omega
    · intro m
      rw [g4 m, h4 m]
      constructor
      · rintro ((h | h) | h)
        · exact Or.inl h
        · exact Or.inr (Or.inr (by omega))
        · exact Or.inr (Or.inl h)
      · rintro (h | h | h)
        · exact Or.inl (Or.inl h)
        · exact Or.inr h
        · exact Or.inl (Or.inr (by omega))
    · rw [g6, h5]
  · rw [if_neg hshift]
    simp only
    obtain ⟨p', hrun, g1, g2, g3, g4, g5, g6⟩ := strikeout_tail_spec p (numeric_of r)
      (by omega) hlo (by omega) hw
    rw [hrun]
    refine ⟨p', rfl, ⟨by omega, ?_, g3⟩, g1, ?_, g5, g6⟩
    · rcases le_total p.replay_window_left_edge (numeric_of r + 33) with h | h
      · rw [max_eq_right h] at g2; omega
      · rw [max_eq_left h] at g2; omega
    · intro m
      rw [g4 m]
      constructor
      · rintro (h | h)
        · exact Or.inl h
        · exact Or.inr (Or.inl h)
      · rintro (h | h | h)
        · exact Or.inl h
        · exact Or.inr h
        · exact Or.inl (Or.inl (by omega))

/-- What holds of `strikeout_primitive` for every number, `left_edge + 64`
included: the call returns, a first use was not recorded as seen, a number
recorded as seen is a duplicate and changes nothing, nothing recorded is
forgotten, the number is recorded afterwards, nothing above it is newly
recorded, and the left edge does not decrease. -/
theorem strikeout_primitive_weak (p : oscore_context_primitive) (r : oscore_requestid_t)
    (hok : window_ok p) :
    ∃ p' b,
      strikeout_primitive p r = some (p', b) ∧
      window_ok p' ∧
      p.replay_window_left_edge ≤ p'.replay_window_left_edge ∧
      (b = true → ¬ seen p (numeric_of r)) ∧
      (seen p (numeric_of r) → b = false ∧ p' = p) ∧
      (∀ m, seen p m → seen p' m) ∧
      seen p' (numeric_of r) ∧
      (∀ m, seen p' m → seen p m ∨ m ≤ numeric_of r) ∧
      p' = { p with
             replay_window_left_edge := p'.replay_window_left_edge,
             replay_window := p'.replay_window } := by
  obtain ⟨hlo, hhi, hw⟩ := hok
  obtain ⟨hn0, hn1⟩ := numeric_of_bounds r
  have hns : to_int64 (to_int64 (numeric_of r - p.replay_window_left_edge) - 32)
      = numeric_of r - p.replay_window_left_edge - 32 := by
    rw [to_int64_eq (numeric_of r - p.replay_window_left_edge) (by omega) (by omega),
      to_int64_eq _ (by omega) (by omega)]
  unfold strikeout_primitive
  simp only [hns]
  by_cases hshift : numeric_of r - p.replay_window_left_edge - 32 ≥ 1
  · rw [if_pos hshift]
    have hn : ((to_size_t (numeric_of r - p.replay_window_left_edge - 32) : Nat) : Int)
        = numeric_of r - p.replay_window_left_edge - 32 := by
      unfold to_size_t; omega
    obtain ⟨p1, hadv, h1, h2, h3, h4, h5, h6, h7⟩ := advance_window_weak p
      (to_size_t (numeric_of r - p.replay_window_left_edge - 32))
      (by omega) (by omega) (by omega) hw
    rw [hn] at h1 h2 h5 h6
    rw [hadv]
    simp only
    have hs : ¬ seen p (numeric_of r) := by
      rintro (h | ⟨_, h, _⟩) <;> omega
    obtain ⟨p', hrun, g1, g2, g3, g4, g5, g6⟩ := strikeout_tail_spec p1 (numeric_of r)
      (by omega) (by omega) (by omega) h3
    rw [hrun]
    refine ⟨p', _, rfl, ⟨by omega, ?_, g3⟩, by omega, fun _ => hs, fun h => absurd h hs, ?_,
      (g4 _).2 (Or.inr rfl), ?_, ?_⟩
    · rcases le_total p1.replay_window_left_edge (numeric_of r + 33) with h | h
      · rw [max_eq_right h] at g2; omega
      · rw [max_eq_left h] at g2; omega
    · intro m hm
      exact (g4 m).2 (Or.inl (h4 m hm))
    · intro m hm
      rcases (g4 m).1 hm with h | h
      · rcases h6 m h with h' | h'
        · exact Or.inl h'
        · exact Or.inr (by omega)
      · exact Or.inr (by omega)
    · rw [g6, h7]
  · rw [if_neg hshift]
    simp only
    obtain ⟨p', hrun, g1, g2, g3, g4, g5, g6⟩ := strikeout_tail_spec p (numeric_of r)
      (by omega) hlo (by omega) hw
    rw [hrun]
    refine ⟨p', _, rfl, ⟨by omega, ?_, g3⟩, g1, ?_, ?_, ?_, (g4 _).2 (Or.inr rfl), ?_, g6⟩
    · rcases le_total p.replay_window_left_edge (numeric_of r + 33) with h | h
      · rw [max_eq_right h] at g2; omega
      · rw [max_eq_left h] at g2; omega
    · intro hb
      simpa using hb
    · intro hsn
      exact ⟨by simpa using hsn, g5 hsn⟩
    · intro m hm
      exact (g4 m).2 (Or.inl hm)
    · intro m hm
      rcases (g4 m).1 hm with h | h
      · exact Or.inl h
      · exact Or.inr (by omega)

theorem primitive_set_primitive (d : oscore_context_data) (p : oscore_context_primitive) :
    (d.set_primitive p).primitive = p := by
  cases d <;> rfl

theorem set_primitive_primitive (d : oscore_context_data) :
    d.set_primitive d.primitive = d := by
  cases d <;> rfl

/-- The specification of `oscore_context_strikeout_requestid` on a context
tagged `OSCORE_CONTEXT_PRIMITIVE` for every number other than `left_edge + 64`,
lifted from `strikeout_primitive_spec`. -/
theorem strikeout_requestid_spec (secctx : oscore_context_t) (r : oscore_requestid_t)
    (htype : secctx.type = .OSCORE_CONTEXT_PRIMITIVE) (hok : window_ok secctx.data.primitive)
    (h64 : numeric_of r ≠ secctx.data.primitive.replay_window_left_edge + 64) :
    ∃ secctx' r',
      oscore_context_strikeout_requestid secctx r = .returned (secctx', r') ∧
      secctx'.type = .OSCORE_CONTEXT_PRIMITIVE ∧
      window_ok secctx'.data.primitive ∧
      numeric_of r' = numeric_of r ∧
      r'.is_first_use = decide (¬ seen secctx.data.primitive (numeric_of r)) ∧
      secctx.data.primitive.replay_window_left_edge
        ≤ secctx'.data.primitive.replay_window_left_edge ∧
      (∀ m, seen secctx'.data.primitive m ↔
        seen secctx.data.primitive m ∨ m = numeric_of r ∨ m < numeric_of r - 32) ∧
      (seen secctx.data.primitive (numeric_of r) → secctx' = secctx) := by
  obtain ⟨p', hrun, h1, h2, h3, h4, _⟩ :=
    strikeout_primitive_spec secctx.data.primitive r hok h64
  refine ⟨{ secctx with data := secctx.data.set_primitive p' },
    { r with is_first_use := decide (¬ seen secctx.data.primitive (numeric_of r)) }, ?_, htype,
    ?_, rfl, rfl, ?_, ?_, ?_⟩
  · unfold oscore_context_strikeout_requestid
    rw [htype]
    simp only [hrun]
  · simp only [primitive_set_primitive]; exact h1
  · simp only [primitive_set_primitive]; exact h2
  · simp only [primitive_set_primitive]; exact h3
  · intro hs
    rw [h4 hs, set_primitive_primitive]

/-- What holds of `oscore_context_strikeout_requestid` on a context tagged
`OSCORE_CONTEXT_PRIMITIVE` for every number, lifted from
`strikeout_primitive_weak`. -/
theorem strikeout_requestid_weak (secctx : oscore_context_t) (r : oscore_requestid_t)
    (htype : secctx.type = .OSCORE_CONTEXT_PRIMITIVE) (hok : window_ok secctx.data.primitive) :
    ∃ secctx' r',
      oscore_context_strikeout_requestid secctx r = .returned (secctx', r') ∧
      secctx'.type = .OSCORE_CONTEXT_PRIMITIVE ∧
      window_ok secctx'.data.primitive ∧
      numeric_of r' = numeric_of r ∧
      secctx.data.primitive.replay_window_left_edge
        ≤ secctx'.data.primitive.replay_window_left_edge ∧
      (r'.is_first_use = true → ¬ seen secctx.data.primitive (numeric_of r)) ∧
      (seen secctx.data.primitive (numeric_of r) →
        r'.is_first_use = false ∧ secctx' = secctx) ∧
      (∀ m, seen secctx.data.primitive m → seen secctx'.data.primitive m) ∧
      seen secctx'.data.primitive (numeric_of r) ∧
      (∀ m, seen secctx'.data.primitive m →
        seen secctx.data.primitive m ∨ m ≤ numeric_of r) := by
  obtain ⟨p', b, hrun, h1, h2, h3, h4, h5, h6, h7, _⟩ :=
    strikeout_primitive_weak secctx.data.primitive r hok
  refine ⟨{ secctx with data := secctx.data.set_primitive p' },
    { r with is_first_use := b }, ?_, htype, ?_, rfl, ?_, h3, ?_, ?_, ?_, ?_⟩
  · unfold oscore_context_strikeout_requestid
    rw [htype]
    simp only [hrun]
  · simp only [primitive_set_primitive]; exact h1
  · simp only [primitive_set_primitive]; exact h2
  · intro hs
    obtain ⟨hb, hp⟩ := h4 hs
    refine ⟨hb, ?_⟩
    rw [hp, set_primitive_primitive]
  · simp only [primitive_set_primitive]; exact h5
  · simp only [primitive_set_primitive]; exact h6
  · simp only [primitive_set_primitive]; exact h7

theorem Outcome.bind_returned {α β : Type} (a : α) (f : α → Outcome β) :
    (Outcome.returned a).bind f = f a := rfl

/-- A run of `strikeout_all` returns; a request id whose number the window
records as seen at the start is never first use, and of two request ids with
the same number the later one is never first use. -/
theorem strikeout_all_spec (ids : List oscore_requestid_t) :
    ∀ (secctx : oscore_context_t),
      secctx.type = .OSCORE_CONTEXT_PRIMITIVE → window_ok secctx.data.primitive →
      ∃ secctx' outs,
        strikeout_all secctx ids = .returned (secctx', outs) ∧
        outs.map numeric_of = ids.map numeric_of ∧
        (∀ y ∈ outs, seen secctx.data.primitive (numeric_of y) → y.is_first_use = false) ∧
        outs.Pairwise (fun x y => numeric_of x = numeric_of y → y.is_first_use = false) := by
  induction ids with
  | nil =>
    intro secctx _ _
    exact ⟨secctx, [], rfl, rfl, by simp, List.Pairwise.nil⟩
  | cons r rest ih =>
    intro secctx htype hok
    obtain ⟨s1, r1, hrun, ht1, hok1, hnum, _, _, hdup, hmono, hadded, _⟩ :=
      strikeout_requestid_weak secctx r htype hok
    obtain ⟨s2, outs, hrun2, hmap, hall, hpair⟩ := ih s1 ht1 hok1
    refine ⟨s2, r1 :: outs, ?_, ?_, ?_, ?_⟩
    · simp only [strikeout_all, hrun, Outcome.bind_returned, hrun2]
    · simp only [List.map_cons, hnum, hmap]
    · intro y hy hs
      rcases List.mem_cons.1 hy with rfl | hy
      · rw [hnum] at hs
        exact (hdup hs).1
      · exact hall y hy (hmono _ hs)
    · refine List.Pairwise.cons ?_ hpair
      intro y hy heq
      apply hall y hy
      rw [← heq, hnum]
      exact hadded

/-! ## The replay window: claims -/

/-- C1: on a context tagged `OSCORE_CONTEXT_PRIMITIVE`, for every initial window
state with a 32-bit bitmap and a left edge in `[0, 2^62)` (which covers
`[0, 2^40]`) and every finite sequence of `oscore_context_strikeout_requestid`
calls, every call returns, the request ids keep their numbers, and of any two
presentations of the same number the later one yields `is_first_use = false`
(whatever the earlier one yielded): no number is first use more than once. -/
theorem strikeout_never_first_use_twice (secctx : oscore_context_t)
    (ids : List oscore_requestid_t)
    (htype : secctx.type = .OSCORE_CONTEXT_PRIMITIVE) (hok : window_ok secctx.data.primitive) :
    ∃ secctx' outs,
      strikeout_all secctx ids = .returned (secctx', outs) ∧
      outs.map numeric_of = ids.map numeric_of ∧
      outs.Pairwise (fun x y => numeric_of x = numeric_of y → y.is_first_use = false) := by
  obtain ⟨secctx', outs, h1, h2, _, h3⟩ := strikeout_all_spec ids secctx htype hok
  exact ⟨secctx', outs, h1, h2, h3⟩

/-- C2, evaluated on the code: with the left edge at 0 and only bit 0 of the
bitmap set (the number 32 used), the number 64 is above `left_edge + 32` and not
recorded as seen, and `oscore_context_strikeout_requestid` classifies it
`is_first_use = false`: the slide by 32 leaves the bitmap unshifted, the roll
moves the stale bit onto the place of 64, and the mask test finds it set. -/
theorem strikeout_64_unseen_not_first_use :
    window_ok (context_with 0 0 1).data.primitive ∧
    numeric_of (requestid_of_nat 64)
      > (context_with 0 0 1).data.primitive.replay_window_left_edge + 32 ∧
    ¬ seen (context_with 0 0 1).data.primitive (numeric_of (requestid_of_nat 64)) ∧
    ∃ secctx' r',
      oscore_context_strikeout_requestid (context_with 0 0 1) (requestid_of_nat 64)
        = .returned (secctx', r') ∧
      r'.is_first_use = false :=
  ⟨by decide, by decide, by decide, context_with 0 33 2, requestid_of_nat 64, by decide,
    by decide⟩

/-- C7: the left edge of the replay window never decreases: after
`oscore_context_strikeout_requestid` it is at least what it was before. -/
theorem strikeout_left_edge_mono (secctx : oscore_context_t) (r : oscore_requestid_t)
    (htype : secctx.type = .OSCORE_CONTEXT_PRIMITIVE) (hok : window_ok secctx.data.primitive) :
    ∃ secctx' r',
      oscore_context_strikeout_requestid secctx r = .returned (secctx', r') ∧
      secctx.data.primitive.replay_window_left_edge
        ≤ secctx'.data.primitive.replay_window_left_edge := by
  obtain ⟨secctx', r', hrun, _, _, _, hle, _⟩ :=
    strikeout_requestid_weak secctx r htype hok
  exact ⟨secctx', r', hrun, hle⟩

/-- C8, evaluated on the code: with the left edge at 0 and only bit 0 of the
bitmap set, the call of `oscore_context_strikeout_requestid` with the number 64
sets `is_first_use = false` and yet moves the left edge from 0 to 33 and the
bitmap from 1 to 2: a call reported as duplicate changes the state. -/
theorem strikeout_duplicate_changes_state :
    ∃ secctx' r',
      oscore_context_strikeout_requestid (context_with 0 0 1) (requestid_of_nat 64)
        = .returned (secctx', r') ∧
      r'.is_first_use = false ∧
      secctx'.data.primitive.replay_window_left_edge = 33 ∧
      secctx'.data.primitive.replay_window = 2 ∧
      secctx'.data.primitive.replay_window_left_edge
        ≠ (context_with 0 0 1).data.primitive.replay_window_left_edge ∧
      secctx'.data.primitive.replay_window
        ≠ (context_with 0 0 1).data.primitive.replay_window :=
  ⟨context_with 0 33 2, requestid_of_nat 64, by decide, by decide, by decide, by decide,
    by decide, by decide⟩

/-- C9: presenting a number twice in a row: after a first
`oscore_context_strikeout_requestid` call, a second call with a request id of
the same number (the same request id in particular) returns, yields
`is_first_use = false` and leaves the context equal to the context after the
first call. -/
theorem strikeout_twice_idempotent (secctx : oscore_context_t) (r : oscore_requestid_t)
    (htype : secctx.type = .OSCORE_CONTEXT_PRIMITIVE) (hok : window_ok secctx.data.primitive) :
    ∃ secctx' r',
      oscore_context_strikeout_requestid secctx r = .returned (secctx', r') ∧
      ∀ again : oscore_requestid_t, numeric_of again = numeric_of r →
        ∃ r2,
          oscore_context_strikeout_requestid secctx' again = .returned (secctx', r2) ∧
          r2.is_first_use = false := by
  obtain ⟨secctx', r', hrun, ht1, hok1, _, _, _, _, _, hadded, _⟩ :=
    strikeout_requestid_weak secctx r htype hok
  refine ⟨secctx', r', hrun, ?_⟩
  intro again hnum
  obtain ⟨s2, r2, hrun2, _, _, _, _, _, hdup2, _⟩ :=
    strikeout_requestid_weak secctx' again ht1 hok1
  have hs : seen secctx'.data.primitive (numeric_of again) := by
    rw [hnum]
    exact hadded
  obtain ⟨hf, hsame⟩ := hdup2 hs
  refine ⟨r2, ?_, hf⟩
  rw [hrun2, hsame]

/-- C10, evaluated on the code: the strictly increasing sequence 32, 64 presented
to the fresh window (`left_edge = 0`, bitmap 0): 32 is first use, and 64 is
classified `is_first_use = false`. -/
theorem strikeout_32_then_64_rejects_64 :
    [requestid_of_nat 32, requestid_of_nat 64].Pairwise
      (fun x y => numeric_of x < numeric_of y) ∧
    ∃ secctx' a b,
      strikeout_all (context_with 0 0 0) [requestid_of_nat 32, requestid_of_nat 64]
        = .returned (secctx', [a, b]) ∧
      numeric_of a = 32 ∧ a.is_first_use = true ∧
      numeric_of b = 64 ∧ b.is_first_use = false :=
  ⟨by decide, context_with 0 33 2, { requestid_of_nat 32 with is_first_use := true },
    requestid_of_nat 64, by decide, by decide, by decide, by decide, by decide⟩

/-! ## The sequence number: encoding and claims -/

theorem to_uint8_shift_val (v sh : Nat) :
    (to_uint8 ((v >>> sh) &&& 0xff)).val = v / 2 ^ sh % 256 := by
  have h : (0xff : Nat) = 2 ^ 8 - 1 := by norm_num
  unfold to_uint8
  simp only
  rw [h, Nat.and_pow_two_sub_one_eq_mod, Nat.shiftRight_eq_div_pow]
  norm_num

theorem to_uint8_and_val (v : Nat) : (to_uint8 (v &&& 0xff)).val = v % 256 := by
  have h := to_uint8_shift_val v 0
  simpa using h

/-- The call `oscore_context_take_seqno` on a context tagged
`OSCORE_CONTEXT_PRIMITIVE` whose counter is below `SEQNO_MAX`: it returns true,
the context is the one passed in, and the bytes are the base-256 digits of the
counter. -/
theorem take_seqno_spec (secctx : oscore_context_t) (r : oscore_requestid_t)
    (htype : secctx.type = .OSCORE_CONTEXT_PRIMITIVE)
    (hv : secctx.data.primitive.sender_sequence_number < SEQNO_MAX) :
    ∃ r',
      oscore_context_take_seqno secctx r = .returned (true, secctx, r') ∧
      r'.bytes0.val = secctx.data.primitive.sender_sequence_number / 2 ^ 32 % 256 ∧
      r'.bytes1.val = secctx.data.primitive.sender_sequence_number / 2 ^ 24 % 256 ∧
      r'.bytes2.val = secctx.data.primitive.sender_sequence_number / 2 ^ 16 % 256 ∧
      r'.bytes3.val = secctx.data.primitive.sender_sequence_number / 2 ^ 8 % 256 ∧
      r'.bytes4.val = secctx.data.primitive.sender_sequence_number % 256 ∧
      r'.used_bytes = used_bytes_of r'.bytes0 r'.bytes1 r'.bytes2 r'.bytes3 ∧
      r'.is_first_use = true := by
  refine ⟨
    { bytes0 := to_uint8 ((secctx.data.primitive.sender_sequence_number >>> 32) &&& 0xff),
      bytes1 := to_uint8 ((secctx.data.primitive.sender_sequence_number >>> 24) &&& 0xff),
      bytes2 := to_uint8 ((secctx.data.primitive.sender_sequence_number >>> 16) &&& 0xff),
      bytes3 := to_uint8 ((secctx.data.primitive.sender_sequence_number >>> 8) &&& 0xff),
      bytes4 := to_uint8 (secctx.data.primitive.sender_sequence_number &&& 0xff),
      used_bytes := used_bytes_of
        (to_uint8 ((secctx.data.primitive.sender_sequence_number >>> 32) &&& 0xff))
        (to_uint8 ((secctx.data.primitive.sender_sequence_number >>> 24) &&& 0xff))
        (to_uint8 ((secctx.data.primitive.sender_sequence_number >>> 16) &&& 0xff))
        (to_uint8 ((secctx.data.primitive.sender_sequence_number >>> 8) &&& 0xff)),
      is_first_use := true },
    ?_, to_uint8_shift_val _ 32, to_uint8_shift_val _ 24, to_uint8_shift_val _ 16,
    to_uint8_shift_val _ 8, to_uint8_and_val _, rfl, rfl⟩
  unfold oscore_context_take_seqno
  rw [htype]
  simp only
  rw [if_neg (by omega)]

theorem uint8_ne_zero_iff (b : uint8_t) : b ≠ 0 ↔ b.val ≠ 0 := by
  constructor
  · intro h hv
    exact h (Fin.ext hv)
  · intro h hb
    exact h (by rw [hb]; rfl)

/-- C4: on a context tagged `OSCORE_CONTEXT_PRIMITIVE`, `oscore_context_take_seqno`
returns, and it returns false if and only if the sender sequence counter is
`>= 2^40 - 1`; when it returns false the context and the passed request id are
unmodified. -/
theorem take_seqno_false_iff_exhausted (secctx : oscore_context_t) (r : oscore_requestid_t)
    (htype : secctx.type = .OSCORE_CONTEXT_PRIMITIVE) :
    ∃ b secctx' r',
      oscore_context_take_seqno secctx r = .returned (b, secctx', r') ∧
      (b = false ↔ secctx.data.primitive.sender_sequence_number ≥ 2 ^ 40 - 1) ∧
      (b = false → secctx' = secctx ∧ r' = r) := by
  by_cases hv : secctx.data.primitive.sender_sequence_number < SEQNO_MAX
  · obtain ⟨r', hrun, _⟩ := take_seqno_spec secctx r htype hv
    refine ⟨true, secctx, r', hrun, ?_, ?_⟩
    · unfold SEQNO_MAX at hv
      constructor
      · intro h; exact absurd h (by decide)
      · intro h
        norm_num at h
        omega
    · intro h; exact absurd h (by decide)
  · refine ⟨false, secctx, r, ?_, ?_, fun _ => ⟨rfl, rfl⟩⟩
    · unfold oscore_context_take_seqno
      rw [htype]
      simp only
      rw [if_pos (by omega)]
    · unfold SEQNO_MAX at hv
      constructor
      · intro _
        norm_num
        omega
      · intro _; rfl

/-- C5: encoding round trip: for every counter value `v` on which
`oscore_context_take_seqno` succeeds (`v < 2^40 - 1`), the call returns true and
the five bytes it writes decode, by the big-endian decoding of
`oscore_context_strikeout_requestid`, back to exactly `v`. -/
theorem take_seqno_decode_roundtrip (secctx : oscore_context_t) (r : oscore_requestid_t)
    (htype : secctx.type = .OSCORE_CONTEXT_PRIMITIVE)
    (hv : secctx.data.primitive.sender_sequence_number < 2 ^ 40 - 1) :
    ∃ secctx' r',
      oscore_context_take_seqno secctx r = .returned (true, secctx', r') ∧
      numeric_of r' = (secctx.data.primitive.sender_sequence_number : Int) := by
  have hv' : secctx.data.primitive.sender_sequence_number < SEQNO_MAX := by
    unfold SEQNO_MAX; norm_num at hv; omega
  obtain ⟨r', hrun, h0, h1, h2, h3, h4, _, _⟩ := take_seqno_spec secctx r htype hv'
  refine ⟨secctx, r', hrun, ?_⟩
  unfold numeric_of
  rw [h0, h1, h2, h3, h4]
  norm_num at hv ⊢
  omega

/-- C6: minimal length: for every counter value `v` on which
`oscore_context_take_seqno` succeeds, `used_bytes` is the least `k` in `1..5`
with `v < 256^k`, the first `5 - used_bytes` bytes of the id are zero, for
`v > 0` the first of the `used_bytes` significant bytes is non-zero, and `v = 0`
gives `used_bytes = 1` with a single zero byte. -/
theorem take_seqno_minimal_length (secctx : oscore_context_t) (r : oscore_requestid_t)
    (htype : secctx.type = .OSCORE_CONTEXT_PRIMITIVE)
    (hv : secctx.data.primitive.sender_sequence_number < 2 ^ 40 - 1) :
    ∃ secctx' r',
      oscore_context_take_seqno secctx r = .returned (true, secctx', r') ∧
      1 ≤ r'.used_bytes ∧ r'.used_bytes ≤ 5 ∧
      secctx.data.primitive.sender_sequence_number < 256 ^ r'.used_bytes ∧
      (∀ k, 1 ≤ k → secctx.data.primitive.sender_sequence_number < 256 ^ k →
        r'.used_bytes ≤ k) ∧
      (∀ i, i < 5 - r'.used_bytes → r'.bytes i = 0) ∧
      (0 < secctx.data.primitive.sender_sequence_number → r'.bytes (5 - r'.used_bytes) ≠ 0) ∧
      (secctx.data.primitive.sender_sequence_number = 0 →
        r'.used_bytes = 1 ∧ r'.bytes 4 = 0) := by
  have hv' : secctx.data.primitive.sender_sequence_number < SEQNO_MAX := by
    unfold SEQNO_MAX; norm_num at hv; omega
  obtain ⟨r', hrun, h0, h1, h2, h3, h4, hu, _⟩ := take_seqno_spec secctx r htype hv'
  refine ⟨secctx, r', hrun, ?_⟩
  generalize secctx.data.primitive.sender_sequence_number = v at hv h0 h1 h2 h3 h4
  norm_num at hv h0 h1 h2 h3 h4
  have z0 := uint8_ne_zero_iff r'.bytes0
  have z1 := uint8_ne_zero_iff r'.bytes1
  have z2 := uint8_ne_zero_iff r'.bytes2
  have z3 := uint8_ne_zero_iff r'.bytes3
  have z4 := uint8_ne_zero_iff r'.bytes4
  have key : ∀ k, 1 ≤ k → k < 5 → v < 256 ^ k →
      (k ≤ 4 → r'.bytes0.val = 0) ∧ (k ≤ 3 → r'.bytes1.val = 0) ∧
      (k ≤ 2 → r'.bytes2.val = 0) ∧ (k ≤ 1 → r'.bytes3.val = 0) := by
    intro k hk1 hk5 hlt
    interval_cases k <;> norm_num at hlt <;> refine ⟨?_, ?_, ?_, ?_⟩ <;> intro _ <;> omega
  unfold used_bytes_of at hu
  by_cases c0 : r'.bytes0 ≠ 0
  · rw [if_pos c0] at hu
    rw [hu]
    refine ⟨by omega, by omega, by norm_num; omega, ?_, ?_, ?_, ?_⟩
    · intro k hk hlt
      by_contra hc
      have := (key k hk (by omega) hlt).1 (by omega)
      exact z0.1 c0 this
    · intro i hi; omega
    · intro _; exact c0
    · intro hz; exact absurd (z0.1 c0) (by omega)
  · rw [if_neg c0] at hu
    have e0 : r'.bytes0 = 0 := not_not.1 c0
    have v0 : r'.bytes0.val = 0 := by rw [e0]; rfl
    by_cases c1 : r'.bytes1 ≠ 0
    · rw [if_pos c1] at hu
      rw [hu]
      refine ⟨by omega, by omega, by norm_num; omega, ?_, ?_, ?_, ?_⟩
      · intro k hk hlt
        by_contra hc
        have := (key k hk (by omega) hlt).2.1 (by omega)
        exact z1.1 c1 this
      · intro i hi
        have : i = 0 := by omega
        rw [this]; exact e0
      · intro _; exact c1
      · intro hz; exact absurd (z1.1 c1) (by omega)
    · rw [if_neg c1] at hu
      have e1 : r'.bytes1 = 0 := not_not.1 c1
      have v1 : r'.bytes1.val = 0 := by rw [e1]; rfl
      by_cases c2 : r'.bytes2 ≠ 0
      · rw [if_pos c2] at hu
        rw [hu]
        refine ⟨by omega, by omega, by norm_num; omega, ?_, ?_, ?_, ?_⟩
        · intro k hk hlt
          by_contra hc
          have := (key k hk (by omega) hlt).2.2.1 (by omega)
          exact z2.1 c2 this
        · intro i hi
          have : i = 0 ∨ i = 1 := by omega
          rcases this with rfl | rfl
          · exact e0
          · exact e1
        · intro _; exact c2
        · intro hz; exact absurd (z2.1 c2) (by omega)
      · rw [if_neg c2] at hu
        have e2 : r'.bytes2 = 0 := not_not.1 c2
        have v2 : r'.bytes2.val = 0 := by rw [e2]; rfl
        by_cases c3 : r'.bytes3 ≠ 0
        · rw [if_pos c3] at hu
          rw [hu]
          refine ⟨by omega, by omega, by norm_num; omega, ?_, ?_, ?_, ?_⟩
          · intro k hk hlt
            by_contra hc
            have := (key k hk (by omega) hlt).2.2.2 (by omega)
            exact z3.1 c3 this
          · intro i hi
            have : i = 0 ∨ i = 1 ∨ i = 2 := by omega
            rcases this with rfl | rfl | rfl
            · exact e0
            · exact e1
            · exact e2
          · intro _; exact c3
          · intro hz; exact absurd (z3.1 c3) (by omega)
        · rw [if_neg c3] at hu
          have e3 : r'.bytes3 = 0 := not_not.1 c3
          have v3 : r'.bytes3.val = 0 := by rw [e3]; rfl
          rw [hu]
          refine ⟨by omega, by omega, by norm_num; omega, ?_, ?_, ?_, ?_⟩
          · intro k hk _; exact hk
          · intro i hi
            have : i = 0 ∨ i = 1 ∨ i = 2 ∨ i = 3 := by omega
            rcases this with rfl | rfl | rfl | rfl
            · exact e0
            · exact e1
            · exact e2
            · exact e3
          · intro hpos
            apply z4.2
            show r'.bytes4.val ≠ 0
            omega
          · intro hz
            refine ⟨rfl, ?_⟩
            apply Fin.ext
            show r'.bytes4.val = 0
            rw [h4, hz]

/-- C3, evaluated on the code: on the context whose sender sequence counter
starts at 0, two successive `oscore_context_take_seqno` calls both succeed and
both return the value 0 in one byte, and the counter is still 0 afterwards: the
function reads the counter and does not advance it. -/
theorem take_seqno_twice_same_value :
    ∃ secctx' a b,
      take_seqno_all (context_with 0 0 0) [requestid_of_nat 0, requestid_of_nat 0]
        = .returned (secctx', [(true, a), (true, b)]) ∧
      numeric_of a = 0 ∧ numeric_of b = 0 ∧ a.used_bytes = 1 ∧ b.used_bytes = 1 ∧
      secctx'.data.primitive.sender_sequence_number = 0 :=
  ⟨context_with 0 0 0,
   { requestid_of_nat 0 with used_bytes := 1, is_first_use := true },
   { requestid_of_nat 0 with used_bytes := 1, is_first_use := true },
   by decide, by decide, by decide, rfl, rfl, rfl⟩

/-! ## Witnesses -/

/-- The values 5, 5, 64, 64, 40, 5 presented to the fresh window: 5 is first use
and later a duplicate, 64 takes the slide by 32, and the theorem gives that no
value is first use twice. -/
theorem strikeout_never_first_use_twice_witness :
    window_ok (context_with 0 0 0).data.primitive ∧
    ∃ secctx' outs,
      strikeout_all (context_with 0 0 0)
        [requestid_of_nat 5, requestid_of_nat 5, requestid_of_nat 64, requestid_of_nat 64,
         requestid_of_nat 40, requestid_of_nat 5]
        = .returned (secctx', outs) ∧
      outs.map numeric_of
        = [requestid_of_nat 5, requestid_of_nat 5, requestid_of_nat 64, requestid_of_nat 64,
           requestid_of_nat 40, requestid_of_nat 5].map numeric_of ∧
      outs.Pairwise (fun x y => numeric_of x = numeric_of y → y.is_first_use = false) :=
  ⟨by decide,
   strikeout_never_first_use_twice (context_with 0 0 0)
     [requestid_of_nat 5, requestid_of_nat 5, requestid_of_nat 64, requestid_of_nat 64,
      requestid_of_nat 40, requestid_of_nat 5] rfl (by decide)⟩

theorem strikeout_left_edge_mono_witness :
    window_ok (context_with 0 0 1).data.primitive ∧
    ∃ secctx' r',
      oscore_context_strikeout_requestid (context_with 0 0 1) (requestid_of_nat 64)
        = .returned (secctx', r') ∧
      (context_with 0 0 1).data.primitive.replay_window_left_edge
        ≤ secctx'.data.primitive.replay_window_left_edge :=
  ⟨by decide,
   strikeout_left_edge_mono (context_with 0 0 1) (requestid_of_nat 64) rfl (by decide)⟩

theorem strikeout_twice_idempotent_witness :
    window_ok (context_with 0 0 4294967295).data.primitive ∧
    ∃ secctx' r',
      oscore_context_strikeout_requestid (context_with 0 0 4294967295) (requestid_of_nat 64)
        = .returned (secctx', r') ∧
      ∀ again : oscore_requestid_t, numeric_of again = numeric_of (requestid_of_nat 64) →
        ∃ r2,
          oscore_context_strikeout_requestid secctx' again = .returned (secctx', r2) ∧
          r2.is_first_use = false :=
  ⟨by decide,
   strikeout_twice_idempotent (context_with 0 0 4294967295) (requestid_of_nat 64) rfl
     (by decide)⟩

theorem take_seqno_false_iff_exhausted_witness :
    (context_with 1099511627775 0 0).type = .OSCORE_CONTEXT_PRIMITIVE ∧
    ∃ b secctx' r',
      oscore_context_take_seqno (context_with 1099511627775 0 0) (requestid_of_nat 7)
        = .returned (b, secctx', r') ∧
      (b = false ↔
        (context_with 1099511627775 0 0).data.primitive.sender_sequence_number ≥ 2 ^ 40 - 1) ∧
      (b = false → secctx' = context_with 1099511627775 0 0 ∧ r' = requestid_of_nat 7) :=
  ⟨rfl, take_seqno_false_iff_exhausted (context_with 1099511627775 0 0) (requestid_of_nat 7) rfl⟩

theorem take_seqno_decode_roundtrip_witness :
    (context_with 1099511627774 0 0).data.primitive.sender_sequence_number < 2 ^ 40 - 1 ∧
    ∃ secctx' r',
      oscore_context_take_seqno (context_with 1099511627774 0 0) (requestid_of_nat 0)
        = .returned (true, secctx', r') ∧
      numeric_of r'
        = ((context_with 1099511627774 0 0).data.primitive.sender_sequence_number : Int) :=
  ⟨by decide,
   take_seqno_decode_roundtrip (context_with 1099511627774 0 0) (requestid_of_nat 0) rfl
     (by decide)⟩

theorem take_seqno_minimal_length_witness :
    (context_with 65536 0 0).data.primitive.sender_sequence_number < 2 ^ 40 - 1 ∧
    ∃ secctx' r',
      oscore_context_take_seqno (context_with 65536 0 0) (requestid_of_nat 0)
        = .returned (true, secctx', r') ∧
      1 ≤ r'.used_bytes ∧ r'.used_bytes ≤ 5 ∧
      (context_with 65536 0 0).data.primitive.sender_sequence_number < 256 ^ r'.used_bytes ∧
      (∀ k, 1 ≤ k → (context_with 65536 0 0).data.primitive.sender_sequence_number < 256 ^ k →
        r'.used_bytes ≤ k) ∧
      (∀ i, i < 5 - r'.used_bytes → r'.bytes i = 0) ∧
      (0 < (context_with 65536 0 0).data.primitive.sender_sequence_number →
        r'.bytes (5 - r'.used_bytes) ≠ 0) ∧
      ((context_with 65536 0 0).data.primitive.sender_sequence_number = 0 →
        r'.used_bytes = 1 ∧ r'.bytes 4 = 0) :=
  ⟨by decide,
   take_seqno_minimal_length (context_with 65536 0 0) (requestid_of_nat 0) rfl (by decide)⟩

/-! ## The window state is determined by what it records -/

/-- Two window states with 32-bit bitmaps that record the same numbers have the
same left edge and the same bitmap. -/
theorem seen_ext (p q : oscore_context_primitive)
    (hp : p.replay_window < 4294967296) (hq : q.replay_window < 4294967296)
    (h : ∀ m, seen p m ↔ seen q m) :
    p.replay_window_left_edge = q.replay_window_left_edge ∧
    p.replay_window = q.replay_window := by
  have hL : p.replay_window_left_edge = q.replay_window_left_edge := by
    have h1 : ¬ q.replay_window_left_edge < p.replay_window_left_edge := fun hlt =>
      not_seen_left_edge q ((h _).1 (Or.inl hlt))
    have h2 : ¬ p.replay_window_left_edge < q.replay_window_left_edge := fun hlt =>
      not_seen_left_edge p ((h _).2 (Or.inl hlt))
    omega
  refine ⟨hL, ?_⟩
  apply Nat.eq_of_testBit_eq
  intro i
  by_cases hi : i < 32
  · have hp' := seen_offset_iff p (32 - i) (by omega) (by omega)
    have hq' := seen_offset_iff q (32 - i) (by omega) (by omega)
    have hidx : 32 - (32 - i) = i := by omega
    rw [hidx] at hp' hq'
    rw [← hL] at hq'
    have := (hp'.symm.trans (h _)).trans hq'
    cases hb : p.replay_window.testBit i <;> cases hc : q.replay_window.testBit i <;>
      simp [hb, hc] at this ⊢
  · have h32 : (4294967296 : Nat) ≤ 2 ^ i :=
      calc (4294967296 : Nat) = 2 ^ 32 := by norm_num
        _ ≤ 2 ^ i := Nat.pow_le_pow_right (by decide) (by omega)
    rw [Nat.testBit_lt_two_pow (lt_of_lt_of_le hp h32),
      Nat.testBit_lt_two_pow (lt_of_lt_of_le hq h32)]

/-- What a window with a single marked number records. -/
theorem seen_single (p : oscore_context_primitive) (edge : Int) (k : Nat) (hk : k < 32)
    (m : Int) :
    seen { p with replay_window_left_edge := edge, replay_window := 2 ^ k } m ↔
      m < edge ∨ m = edge + 32 - k := by
  have h := seen_mark { p with replay_window_left_edge := edge, replay_window := 0 }
    (32 - k) (by omega) (by omega) m
  have hidx : 32 - (32 - k) = k := by omega
  simp only [hidx, Nat.zero_or] at h
  rw [h]
  unfold seen
  simp only [Nat.zero_testBit]
  constructor
  · rintro ((h1 | ⟨_, _, h1⟩) | h1)
    · exact Or.inl h1
    · exact absurd h1 (by decide)
    · exact Or.inr (by omega)
  · rintro (h1 | h1)
    · exact Or.inl (Or.inl h1)
    · exact Or.inr (by omega)

/-- For every number other than `left_edge + 64`, the state after
`oscore_context_strikeout_requestid` is the one state with a 32-bit bitmap that
records what was recorded before, the number presented and everything below
`numeric - 32`. -/
theorem strikeout_requestid_state (secctx : oscore_context_t) (r : oscore_requestid_t)
    (htype : secctx.type = .OSCORE_CONTEXT_PRIMITIVE) (hok : window_ok secctx.data.primitive)
    (h64 : numeric_of r ≠ secctx.data.primitive.replay_window_left_edge + 64)
    (edge : Int) (window : Nat) (hwin : window < 4294967296)
    (hseen : ∀ m,
      seen { secctx.data.primitive with
             replay_window_left_edge := edge, replay_window := window } m ↔
        seen secctx.data.primitive m ∨ m = numeric_of r ∨ m < numeric_of r - 32) :
    oscore_context_strikeout_requestid secctx r = .returned
      ({ secctx with
         data := secctx.data.set_primitive
           { secctx.data.primitive with
             replay_window_left_edge := edge, replay_window := window } },
       { r with is_first_use := decide (¬ seen secctx.data.primitive (numeric_of r)) }) := by
  obtain ⟨p', hrun, hok', _, h3, _, h5⟩ :=
    strikeout_primitive_spec secctx.data.primitive r hok h64
  have hext := seen_ext p'
    { secctx.data.primitive with replay_window_left_edge := edge, replay_window := window }
    hok'.2.2 hwin (fun m => (h3 m).trans (hseen m).symm)
  simp only at hext
  unfold oscore_context_strikeout_requestid
  rw [htype]
  simp only [hrun]
  rw [h5, hext.1, hext.2]

/-! ## Leading ones and the number of iterations of the roll -/

theorem leading_ones_below_spec (w : Nat) (n : Nat) :
    leading_ones_below w n ≤ n ∧
    (∀ k, k < leading_ones_below w n → w.testBit (n - 1 - k) = true) ∧
    (leading_ones_below w n < n → w.testBit (n - 1 - leading_ones_below w n) = false) := by
  induction n with
  | zero => simp [leading_ones_below]
  | succ n ih =>
    obtain ⟨h1, h2, h3⟩ := ih
    by_cases hb : w.testBit n = true
    · simp only [leading_ones_below, hb, if_true]
      refine ⟨by omega, ?_, ?_⟩
      · intro k hk
        rcases Nat.eq_zero_or_pos k with rfl | hpos
        · simpa using hb
        · have := h2 (k - 1) (by omega)
          have hidx : n + 1 - 1 - k = n - 1 - (k - 1) := by omega
          rw [hidx]; exact this
      · intro hlt
        have := h3 (by omega)
        have hidx : n + 1 - 1 - (leading_ones_below w n + 1) = n - 1 - leading_ones_below w n := by
          omega
        rw [hidx]; exact this
    · simp only [leading_ones_below, hb]
      refine ⟨by simp, by simp, ?_⟩
      intro _
      simpa using hb

theorem leading_ones_le (w : Nat) : leading_ones w ≤ 32 :=
  (leading_ones_below_spec w 32).1

theorem leading_ones_below_shift (w : Nat) (n : Nat) (hn : n + 1 ≤ 32) :
    leading_ones_below (to_uint32 (w <<< 1)) (n + 1) = leading_ones_below w n := by
  induction n with
  | zero =>
    have h0 : (to_uint32 (w <<< 1)).testBit 0 = false := by
      rw [testBit_to_uint32_shiftLeft]; simp
    show (if (to_uint32 (w <<< 1)).testBit 0 = true then
        leading_ones_below (to_uint32 (w <<< 1)) 0 + 1 else 0) = 0
    rw [h0]
    rfl
  | succ n ih =>
    have hbit : (to_uint32 (w <<< 1)).testBit (n + 1) = w.testBit n := by
      rw [testBit_to_uint32_shiftLeft]
      have h1 : n + 1 < 32 := by omega
      simp [h1]
    rw [leading_ones_below, hbit, ih (by omega)]
    rfl

theorem to_uint32_shiftLeft_shiftLeft (w a b : Nat) :
    to_uint32 (to_uint32 (w <<< a) <<< b) = to_uint32 (w <<< (a + b)) := by
  unfold to_uint32
  rw [Nat.shiftLeft_eq, Nat.shiftLeft_eq, Nat.shiftLeft_eq, Nat.mod_mul_mod, Nat.pow_add,
    Nat.mul_assoc]

/-- The window after the count-leading-ones roll records what was recorded
before and the old left edge. -/
theorem seen_roll_window_clo (p : oscore_context_primitive) (m : Int) :
    seen (roll_window_clo p) m ↔ seen p m ∨ m = p.replay_window_left_edge := by
  obtain ⟨hc32, hones, hzero⟩ := leading_ones_below_spec p.replay_window 32
  have hform : roll_window_clo p =
      { p with
        replay_window := to_uint32 (p.replay_window <<< (leading_ones p.replay_window + 1)),
        replay_window_left_edge :=
          p.replay_window_left_edge + ((leading_ones p.replay_window + 1 : Nat) : Int) } := by
    unfold roll_window_clo to_uint32
    have h32 : (2 : Nat) ^ 32 = 4294967296 := by norm_num
    rw [h32]
    congr 1
    push_cast
    ring
  rw [hform, seen_shift]
  have hnext : ¬ seen p (p.replay_window_left_edge
      + ((leading_ones p.replay_window + 1 : Nat) : Int)) := by
    by_cases hc : leading_ones p.replay_window < 32
    · rw [seen_offset_iff p _ (by omega) (by omega)]
      have := hzero hc
      have hidx : 32 - (leading_ones p.replay_window + 1)
          = 32 - 1 - leading_ones_below p.replay_window 32 := by
        unfold leading_ones; omega
      rw [hidx, this]
      decide
    · rintro (h | ⟨_, h, _⟩)
      · omega
      · push_cast at h
        omega
  constructor
  · rintro ⟨h | h, _⟩
    · exact Or.inl h
    · rcases lt_trichotomy m p.replay_window_left_edge with h1 | h1 | h1
      · exact Or.inl (Or.inl h1)
      · exact Or.inr h1
      · left
        obtain ⟨d, hd⟩ : ∃ d : Nat, m = p.replay_window_left_edge + d :=
          ⟨(m - p.replay_window_left_edge).toNat, by omega⟩
        have hd1 : 1 ≤ d := by omega
        have hd2 : d - 1 < leading_ones_below p.replay_window 32 := by
          push_cast at h
          unfold leading_ones at h
          omega
        rw [hd, seen_offset_iff p d hd1 (by omega)]
        have := hones (d - 1) hd2
        have hidx : 32 - d = 32 - 1 - (d - 1) := by omega
        rw [hidx]; exact this
  · rintro (h | h)
    · refine ⟨Or.inl h, ?_⟩
      intro hm
      rw [hm] at h
      exact hnext h
    · refine ⟨Or.inr ?_, ?_⟩
      · push_cast
        omega
      · push_cast
        omega

theorem roll_window_clo_window_lt (p : oscore_context_primitive) :
    (roll_window_clo p).replay_window < 4294967296 := by
  unfold roll_window_clo
  simp only
  exact Nat.mod_lt _ (by norm_num)

theorem roll_window_loop_count_fst (fuel : Nat) :
    ∀ (b : Bool) (ctx : oscore_context_primitive),
      (roll_window_loop_count fuel b ctx).map Prod.fst = roll_window_loop fuel b ctx := by
  induction fuel with
  | zero => intro b ctx; rfl
  | succ f ih =>
    intro b ctx
    cases b
    · rfl
    · simp only [roll_window_loop_count, roll_window_loop, if_true, Option.map_map]
      rw [← ih]
      rfl

/-- The roll terminates, whatever the left edge: with at most `k - 1` leading one
bits possible, the loop body runs `1 + leading_ones` times, at most `k`. -/
theorem roll_window_loop_count_spec (k : Nat) :
    ∀ (fuel : Nat) (ctx : oscore_context_primitive),
      k + 1 ≤ fuel → 1 ≤ k →
      ctx.replay_window < 4294967296 →
      (∀ i, i + k < 33 → ctx.replay_window.testBit i = false) →
      ∃ ctx' n, roll_window_loop_count fuel true ctx = some (ctx', n) ∧
        n = leading_ones ctx.replay_window + 1 ∧ n ≤ k ∧
        ctx'.replay_window < 4294967296 := by
  induction k with
  | zero => intro _ _ _ h; omega
  | succ k ih =>
    intro fuel ctx hfuel _ hw hlow
    obtain ⟨f, rfl⟩ : ∃ f, fuel = f + 1 := ⟨fuel - 1, by omega⟩
    rw [roll_window_loop_count, if_pos rfl]
    by_cases hb : ctx.replay_window >>> 31 ≠ 0
    · have hbit : ctx.replay_window.testBit 31 = true := (shiftRight_31_ne_zero_iff _ hw).1 hb
      have hk : 1 ≤ k := by
        by_contra hk0
        have := hlow 31 (by omega)
        rw [this] at hbit
        exact absurd hbit (by decide)
      rw [decide_eq_true hb]
      obtain ⟨ctx', n, hrun, h1, h2, h3⟩ := ih f
        { ctx with
          replay_window := to_uint32 (ctx.replay_window <<< 1),
          replay_window_left_edge := to_int64 (ctx.replay_window_left_edge + 1) }
        (by omega) hk (to_uint32_lt _)
        (by
          intro i hi
          simp only [testBit_to_uint32_shiftLeft]
          by_cases hi0 : 1 ≤ i
          · rw [hlow (i - 1) (by omega)]; simp
          · simp [hi0])
      refine ⟨ctx', n + 1, by rw [hrun]; rfl, ?_, by omega, h3⟩
      simp only at h1
      rw [h1]
      unfold leading_ones
      rw [leading_ones_below_shift _ 31 (by omega)]
      conv => rhs; rw [leading_ones_below, if_pos hbit]
    · have hbit : ctx.replay_window.testBit 31 = false := by
        by_contra hne
        exact hb ((shiftRight_31_ne_zero_iff _ hw).2 (by simpa using hne))
      rw [decide_eq_false hb]
      obtain ⟨f', rfl⟩ : ∃ f', f = f' + 1 := ⟨f - 1, by omega⟩
      rw [roll_window_loop_count, if_neg (by decide)]
      refine ⟨_, 1, rfl, ?_, by omega, to_uint32_lt _⟩
      unfold leading_ones
      rw [leading_ones_below]
      simp [hbit]

/-! ## Totality, whatever the left edge -/

theorem roll_window_total (ctx : oscore_context_primitive)
    (hw : ctx.replay_window < 4294967296) :
    ∃ ctx' n, roll_window_loop_count ROLL_FUEL true ctx = some (ctx', n) ∧
      roll_window ctx = some ctx' ∧
      n = leading_ones ctx.replay_window + 1 ∧ n ≤ 33 ∧
      ctx'.replay_window < 4294967296 ∧
      ∀ fuel, ROLL_FUEL ≤ fuel → roll_window_loop_count fuel true ctx = some (ctx', n) := by
  obtain ⟨ctx', n, hrun, h1, h2, h3⟩ := roll_window_loop_count_spec 33 ROLL_FUEL ctx
    (by unfold ROLL_FUEL; omega) (by omega) hw (by intro i hi; omega)
  refine ⟨ctx', n, hrun, ?_, h1, h2, h3, ?_⟩
  · unfold roll_window
    rw [← roll_window_loop_count_fst, hrun]
    rfl
  · intro fuel hfuel
    obtain ⟨ctx2, n2, hrun2, g1, _, _⟩ := roll_window_loop_count_spec 33 fuel ctx
      (by unfold ROLL_FUEL at hfuel; omega) (by omega) hw (by intro i hi; omega)
    have hfst := roll_window_loop_count_fst fuel true ctx
    have hfst0 := roll_window_loop_count_fst ROLL_FUEL true ctx
    rw [hrun2] at hfst
    rw [hrun] at hfst0
    have hmono : roll_window_loop fuel true ctx = roll_window_loop ROLL_FUEL true ctx := by
      have hstep : ∀ (a : Nat) (b : Bool) (c c' : oscore_context_primitive),
          roll_window_loop a b c = some c' → roll_window_loop (a + 1) b c = some c' := by
        intro a
        induction a with
        | zero => intro b c c' h; simp [roll_window_loop] at h
        | succ a ih =>
          intro b c c' h
          cases b
          · simpa [roll_window_loop] using h
          · rw [roll_window_loop, if_pos rfl] at h
            rw [roll_window_loop, if_pos rfl]
            exact ih _ _ _ h
      have hadd : ∀ d, roll_window_loop (ROLL_FUEL + d) true ctx = some ctx' := by
        intro d
        induction d with
        | zero => exact hfst0.symm
        | succ d ihd => exact hstep _ _ _ _ ihd
      obtain ⟨d, rfl⟩ : ∃ d, fuel = ROLL_FUEL + d := ⟨fuel - ROLL_FUEL, by omega⟩
      rw [hadd d]
      exact hfst0
    rw [hmono, ← hfst0] at hfst
    simp only [Option.map_some', Option.some.injEq] at hfst
    rw [hrun2, g1, h1, hfst]

theorem advance_window_total (ctx : oscore_context_primitive) (n : Nat) :
    ∃ ctx', advance_window ctx n = some ctx' ∧ ctx'.replay_window < 4294967296 := by
  unfold advance_window
  simp only
  by_cases hbig : n > 32
  · rw [if_pos hbig]
    exact ⟨_, rfl, by simp only; omega⟩
  · rw [if_neg hbig]
    by_cases hb : ctx.replay_window &&& to_uint32 (1 <<< (32 - n)) ≠ 0
    · rw [decide_eq_true hb, if_pos rfl]
      obtain ⟨ctx', _, _, hrun, _, _, h3, _⟩ := roll_window_total
        { ctx with
          replay_window_left_edge := to_int64 (ctx.replay_window_left_edge + n),
          replay_window := shl_uint32 ctx.replay_window n } (shl_uint32_lt _ _)
      exact ⟨ctx', hrun, h3⟩
    · rw [decide_eq_false hb, if_neg (by decide)]
      exact ⟨_, rfl, shl_uint32_lt _ _⟩

/-- The body `strikeout_primitive` returns for every left edge and every 32-bit
bitmap. -/
theorem strikeout_primitive_total (p : oscore_context_primitive) (r : oscore_requestid_t)
    (hw : p.replay_window < 4294967296) :
    ∃ out, strikeout_primitive p r = some out := by
  unfold strikeout_primitive
  simp only
  have hadv : ∃ p1,
      (if to_int64 (to_int64 (numeric_of r - p.replay_window_left_edge) - 32) ≥ 1 then
        advance_window p
          (to_size_t (to_int64 (to_int64 (numeric_of r - p.replay_window_left_edge) - 32)))
      else some p) = some p1 ∧ p1.replay_window < 4294967296 := by
    by_cases hs : to_int64 (to_int64 (numeric_of r - p.replay_window_left_edge) - 32) ≥ 1
    · rw [if_pos hs]
      exact advance_window_total p _
    · rw [if_neg hs]
      exact ⟨p, rfl, hw⟩
  obtain ⟨p1, hrun, hw1⟩ := hadv
  rw [hrun]
  simp only
  by_cases h1 : numeric_of r < p1.replay_window_left_edge
  · rw [if_pos h1]
    exact ⟨_, rfl⟩
  · rw [if_neg h1]
    by_cases h2 : numeric_of r = p1.replay_window_left_edge
    · rw [if_pos h2]
      obtain ⟨ctx', _, _, hroll, _⟩ := roll_window_total p1 hw1
      rw [hroll]
      exact ⟨_, rfl⟩
    · rw [if_neg h2]
      exact ⟨_, rfl⟩

/-! ## What the window records after a sequence of calls -/

theorem seen_fresh (p : oscore_context_primitive)
    (hedge : p.replay_window_left_edge = 0) (hwindow : p.replay_window = 0) (m : Int) :
    seen p m ↔ m < 0 := by
  unfold seen
  rw [hedge, hwindow]
  simp only [Nat.zero_testBit]
  constructor
  · rintro (h | ⟨_, _, h⟩)
    · exact h
    · exact absurd h (by decide)
  · exact fun h => Or.inl h

theorem window_ok_fresh (p : oscore_context_primitive)
    (hedge : p.replay_window_left_edge = 0) (hwindow : p.replay_window = 0) : window_ok p := by
  unfold window_ok
  rw [hedge, hwindow]
  decide

theorem numeric_of_requestid_of_nat (v : Nat) (hv : v < 1099511627776) :
    numeric_of (requestid_of_nat v) = v := by
  unfold numeric_of requestid_of_nat to_uint8
  simp only
  omega

theorem mem_burst (n : Nat) (r : oscore_requestid_t) :
    r ∈ burst n ↔ ∃ i, i < n ∧ r = requestid_of_nat (i + 1) := by
  unfold burst
  simp only [List.mem_map, List.mem_range]
  constructor
  · rintro ⟨i, hi, h⟩
    exact ⟨i, hi, h.symm⟩
  · rintro ⟨i, hi, h⟩
    exact ⟨i, hi, h.symm⟩

theorem seen_empty (p : oscore_context_primitive) (hwindow : p.replay_window = 0) (m : Int) :
    seen p m ↔ m < p.replay_window_left_edge := by
  unfold seen
  rw [hwindow]
  simp only [Nat.zero_testBit]
  constructor
  · rintro (h | ⟨_, _, h⟩)
    · exact h
    · exact absurd h (by decide)
  · exact fun h => Or.inl h

theorem left_edge_eq_of_seen (p : oscore_context_primitive) (a : Int)
    (h1 : ¬ seen p a) (h2 : ∀ m, m < a → seen p m) : p.replay_window_left_edge = a := by
  have ha : ¬ a < p.replay_window_left_edge := fun h => h1 (Or.inl h)
  have hb : ¬ p.replay_window_left_edge < a := fun h => not_seen_left_edge p (h2 _ h)
  omega

theorem map_range_eq_burst_from (n : Nat) :
    ∀ a : Nat, (List.range n).map (fun i => requestid_of_nat (a + i + 1)) = burst_from a n := by
  induction n with
  | zero => intro a; rfl
  | succ n ih =>
    intro a
    rw [List.range_succ_eq_map, List.map_cons, List.map_map, burst_from, ← ih (a + 1)]
    congr 1
    apply List.map_congr_left
    intro i _
    show requestid_of_nat (a + (i + 1) + 1) = requestid_of_nat (a + 1 + i + 1)
    congr 1
    omega

theorem burst_eq_burst_from (n : Nat) : burst n = burst_from 0 n := by
  rw [← map_range_eq_burst_from n 0]
  unfold burst
  apply List.map_congr_left
  intro i _
  simp

/-- Presenting `a + 1, ..., a + n` to a window that records the numbers below 0,
the numbers 1 to `a`, and 0 once `a` is at least 33: every call returns, and the
window then records the same with `a + n` for `a`. No call of this run slides by
32. -/
theorem strikeout_all_burst_from (n : Nat) :
    ∀ (a : Nat) (secctx : oscore_context_t),
      secctx.type = .OSCORE_CONTEXT_PRIMITIVE → window_ok secctx.data.primitive →
      (∀ m : Int, seen secctx.data.primitive m ↔
        m < 0 ∨ (1 ≤ m ∧ m ≤ a) ∨ (33 ≤ a ∧ m = 0)) →
      a + n < 1099511627776 →
      ∃ secctx' outs,
        strikeout_all secctx (burst_from a n) = .returned (secctx', outs) ∧
        window_ok secctx'.data.primitive ∧
        ∀ m : Int, seen secctx'.data.primitive m ↔
          m < 0 ∨ (1 ≤ m ∧ m ≤ ((a + n : Nat) : Int)) ∨ (33 ≤ a + n ∧ m = 0) := by
  induction n with
  | zero =>
    intro a secctx _ hok hseen _
    exact ⟨secctx, [], rfl, hok, hseen⟩
  | succ n ih =>
    intro a secctx htype hok hseen hlt
    have hnum : numeric_of (requestid_of_nat (a + 1)) = ((a + 1 : Nat) : Int) :=
      numeric_of_requestid_of_nat _ (by omega)
    have hedge : secctx.data.primitive.replay_window_left_edge = 0 ∨
        secctx.data.primitive.replay_window_left_edge = a + 1 := by
      by_cases ha : a ≤ 32
      · left
        apply left_edge_eq_of_seen
        · rw [hseen]; omega
        · intro m hm; rw [hseen]; omega
      · right
        apply left_edge_eq_of_seen
        · rw [hseen]; omega
        · intro m hm; rw [hseen]; omega
    have hzero : secctx.data.primitive.replay_window_left_edge = 0 → a ≤ 32 := by
      intro h0
      by_contra ha
      have := not_seen_left_edge secctx.data.primitive
      rw [h0, hseen] at this
      omega
    obtain ⟨s1, r1, hrun, ht1, hok1, _, _, _, hseen1, _⟩ :=
      strikeout_requestid_spec secctx (requestid_of_nat (a + 1)) htype hok
        (by
          rw [hnum]
          push_cast
          rcases hedge with h | h
          · have := hzero h
            omega
          · omega)
    obtain ⟨s2, outs, hrun2, hok2, hseen2⟩ := ih (a + 1) s1 ht1 hok1
      (by
        intro m
        rw [hseen1 m, hseen m, hnum]
        push_cast
        omega)
      (by omega)
    refine ⟨s2, r1 :: outs, ?_, hok2, ?_⟩
    · simp only [burst_from, strikeout_all, hrun, Outcome.bind_returned, hrun2]
    · intro m
      rw [hseen2 m]
      have : a + 1 + n = a + (n + 1) := by omega
      rw [this]

/-- Presenting `1, 2, ..., n` to the fresh window, for `n` of at least 33: every
call returns, and the window ends empty with the left edge at `n + 1`. -/
theorem strikeout_all_burst (secctx : oscore_context_t) (n : Nat)
    (htype : secctx.type = .OSCORE_CONTEXT_PRIMITIVE)
    (hedge : secctx.data.primitive.replay_window_left_edge = 0)
    (hwindow : secctx.data.primitive.replay_window = 0)
    (hn : 33 ≤ n) (hn2 : n < 1099511627776) :
    ∃ secctx' outs,
      strikeout_all secctx (burst n) = .returned (secctx', outs) ∧
      secctx'.data.primitive.replay_window_left_edge = n + 1 ∧
      secctx'.data.primitive.replay_window = 0 := by
  obtain ⟨s, outs, hrun, hok, hseen⟩ := strikeout_all_burst_from n 0 secctx htype
    (window_ok_fresh _ hedge hwindow)
    (by
      intro m
      rw [seen_fresh _ hedge hwindow]
      constructor
      · exact fun h => Or.inl h
      · rintro (h | ⟨h1, h2⟩ | ⟨h, _⟩)
        · exact h
        · push_cast at h2
          omega
        · omega)
    (by omega)
  have hext := seen_ext s.data.primitive
    { s.data.primitive with replay_window_left_edge := n + 1, replay_window := 0 }
    hok.2.2 (by simp only; omega)
    (by
      intro m
      rw [hseen m, seen_empty _ rfl]
      simp only
      push_cast
      omega)
  rw [burst_eq_burst_from]
  exact ⟨s, outs, hrun, hext.1, hext.2⟩

/-- The iterative `roll_window` returns the state of the count-leading-ones
formulation. -/
theorem roll_window_eq_clo (p : oscore_context_primitive)
    (hlo : -9223372036854775808 ≤ p.replay_window_left_edge)
    (hhi : p.replay_window_left_edge + 33 < 9223372036854775808)
    (hw : p.replay_window < 4294967296) :
    roll_window p = some (roll_window_clo p) := by
  obtain ⟨p', hrun, _, _, h3, h4, h5⟩ := roll_window_spec p 33 (by omega) (by omega) hlo
    (by omega) hw (by intro i hi; omega)
  have hext := seen_ext p' (roll_window_clo p) h3 (roll_window_clo_window_lt p)
    (fun m => (h4 m).trans (seen_roll_window_clo p m).symm)
  rw [hrun, h5, hext.1, hext.2]
  rfl

/-! ## The replay window: further claims -/

/-- C11, as amended: presenting the values 1, 2, 3, ..., 40 in this order to a
fresh window (`left_edge = 0`, bitmap 0) through
`oscore_context_strikeout_requestid` leaves the window with a final
`left_edge = 41` and an empty bitmap: the slide for 33 rolls the edge past the
numbers 1 to 32 already used, and each later value is the edge value. -/
theorem strikeout_burst_40_left_edge (secctx : oscore_context_t)
    (htype : secctx.type = .OSCORE_CONTEXT_PRIMITIVE)
    (hedge : secctx.data.primitive.replay_window_left_edge = 0)
    (hwindow : secctx.data.primitive.replay_window = 0) :
    ∃ secctx' outs,
      strikeout_all secctx (burst 40) = .returned (secctx', outs) ∧
      secctx'.data.primitive.replay_window_left_edge = 41 ∧
      secctx'.data.primitive.replay_window = 0 := by
  obtain ⟨s, outs, hrun, h1, h2⟩ := strikeout_all_burst secctx 40 htype hedge hwindow
    (by omega) (by omega)
  exact ⟨s, outs, hrun, by rw [h1]; norm_num, h2⟩

/-- C11, as stated, fails: after 1, 2, ..., 40 on the fresh window the final left
edge is not 32. -/
theorem burst_40_final_edge_is_not_32 :
    ¬ ∃ secctx' outs,
      strikeout_all (context_with 0 0 0) (burst 40) = .returned (secctx', outs) ∧
      secctx'.data.primitive.replay_window_left_edge = 32 := by
  rintro ⟨s, outs, hrun, hL⟩
  obtain ⟨s', outs', hrun', hL', _⟩ := strikeout_all_burst (context_with 0 0 0) 40 rfl rfl rfl
    (by omega) (by omega)
  rw [hrun] at hrun'
  simp only [Outcome.returned.injEq, Prod.mk.injEq] at hrun'
  rw [← hrun'.1, hL] at hL'
  norm_num at hL'

/-- C12: out-of-order value inside the window: for `left_edge < numeric <=
left_edge + 32`, `oscore_context_strikeout_requestid` returns, leaves the left
edge unchanged, leaves every bitmap bit other than bit `32 - (numeric -
left_edge)` unchanged, leaves that bit set, and reports `is_first_use = true`
exactly when that bit was clear before the call. -/
theorem strikeout_inside_window (secctx : oscore_context_t) (r : oscore_requestid_t)
    (htype : secctx.type = .OSCORE_CONTEXT_PRIMITIVE) (hok : window_ok secctx.data.primitive)
    (hlo : secctx.data.primitive.replay_window_left_edge < numeric_of r)
    (hhi : numeric_of r ≤ secctx.data.primitive.replay_window_left_edge + 32) :
    ∃ secctx' r',
      oscore_context_strikeout_requestid secctx r = .returned (secctx', r') ∧
      secctx'.data.primitive.replay_window_left_edge
        = secctx.data.primitive.replay_window_left_edge ∧
      (∀ i, i ≠ (32 - (numeric_of r - secctx.data.primitive.replay_window_left_edge)).toNat →
        secctx'.data.primitive.replay_window.testBit i
          = secctx.data.primitive.replay_window.testBit i) ∧
      secctx'.data.primitive.replay_window.testBit
        (32 - (numeric_of r - secctx.data.primitive.replay_window_left_edge)).toNat = true ∧
      (r'.is_first_use = true ↔
        secctx.data.primitive.replay_window.testBit
          (32 - (numeric_of r - secctx.data.primitive.replay_window_left_edge)).toNat
          = false) := by
  obtain ⟨d, hd⟩ : ∃ d : Nat, numeric_of r = secctx.data.primitive.replay_window_left_edge + d :=
    ⟨(numeric_of r - secctx.data.primitive.replay_window_left_edge).toNat, by omega⟩
  have hd1 : 1 ≤ d := by omega
  have hd2 : d ≤ 32 := by omega
  have hidx : (32 - (numeric_of r - secctx.data.primitive.replay_window_left_edge)).toNat
      = 32 - d := by omega
  have hrun := strikeout_requestid_state secctx r htype hok (by omega)
    secctx.data.primitive.replay_window_left_edge
    (secctx.data.primitive.replay_window ||| 2 ^ (32 - d))
    (or_two_pow_lt _ _ hok.2.2 (by omega))
    (by
      intro m
      have := seen_mark secctx.data.primitive d hd1 hd2 m
      rw [hd]
      constructor
      · intro h
        rcases this.1 h with h1 | h1
        · exact Or.inl h1
        · exact Or.inr (Or.inl h1)
      · rintro (h | h | h)
        · exact this.2 (Or.inl h)
        · exact this.2 (Or.inr h)
        · exact this.2 (Or.inl (Or.inl (by omega))))
  refine ⟨_, _, hrun, ?_, ?_, ?_, ?_⟩
  · simp only [primitive_set_primitive]
  · intro i hi
    rw [hidx] at hi
    simp only [primitive_set_primitive, Nat.testBit_or, Nat.testBit_two_pow]
    have : ¬ (32 - d = i) := fun h => hi h.symm
    simp [this]
  · rw [hidx]
    simp only [primitive_set_primitive, Nat.testBit_or, Nat.testBit_two_pow_self, Bool.or_true]
  · rw [hidx]
    have hs := seen_offset_iff secctx.data.primitive d hd1 hd2
    rw [← hd] at hs
    simp only [decide_eq_true_eq]
    rw [hs]
    simp

/-- C13: large forward jump: for `numeric > left_edge + 64` (a shift above 32,
jumps of `2^32` or more included), `oscore_context_strikeout_requestid` returns
with `left_edge = numeric - 32`, bitmap `0x00000001` (only the bit of `numeric`;
all prior bitmap state is discarded) and `is_first_use = true`. -/
theorem strikeout_large_jump (secctx : oscore_context_t) (r : oscore_requestid_t)
    (htype : secctx.type = .OSCORE_CONTEXT_PRIMITIVE) (hok : window_ok secctx.data.primitive)
    (hjump : numeric_of r > secctx.data.primitive.replay_window_left_edge + 64) :
    ∃ secctx' r',
      oscore_context_strikeout_requestid secctx r = .returned (secctx', r') ∧
      secctx'.data.primitive.replay_window_left_edge = numeric_of r - 32 ∧
      secctx'.data.primitive.replay_window = 1 ∧
      r'.is_first_use = true := by
  have hns : ¬ seen secctx.data.primitive (numeric_of r) := by
    rintro (h | ⟨_, h, _⟩) <;> omega
  have hrun := strikeout_requestid_state secctx r htype hok (by omega) (numeric_of r - 32)
    (2 ^ 0) (by norm_num)
    (by
      intro m
      rw [seen_single _ _ 0 (by omega)]
      constructor
      · rintro (h | h)
        · exact Or.inr (Or.inr h)
        · exact Or.inr (Or.inl (by push_cast at h; omega))
      · rintro (h | h | h)
        · rcases h with h | ⟨_, h, _⟩
          · exact Or.inl (by omega)
          · exact Or.inl (by omega)
        · exact Or.inr (by push_cast; omega)
        · exact Or.inl h)
  refine ⟨_, _, hrun, ?_, ?_, ?_⟩
  · simp only [primitive_set_primitive]
  · simp only [primitive_set_primitive, pow_zero]
  · simp [hns]

/-- C14: using the edge value: for `numeric = left_edge`,
`oscore_context_strikeout_requestid` returns with `is_first_use = true`, and the
iterative `roll_window` equals the count-leading-ones formulation: with `c` the
number of leading one bits of the bitmap (`0 <= c <= 32`), the new left edge is
`left_edge + 1 + c` and the new bitmap is the old bitmap shifted left by `c + 1`
bits, zero-filled and truncated to 32 bits. -/
theorem strikeout_edge_value (secctx : oscore_context_t) (r : oscore_requestid_t)
    (htype : secctx.type = .OSCORE_CONTEXT_PRIMITIVE) (hok : window_ok secctx.data.primitive)
    (heq : numeric_of r = secctx.data.primitive.replay_window_left_edge) :
    ∃ secctx' r',
      oscore_context_strikeout_requestid secctx r = .returned (secctx', r') ∧
      r'.is_first_use = true ∧
      roll_window secctx.data.primitive = some (roll_window_clo secctx.data.primitive) ∧
      secctx'.data.primitive = roll_window_clo secctx.data.primitive ∧
      leading_ones secctx.data.primitive.replay_window ≤ 32 ∧
      secctx'.data.primitive.replay_window_left_edge
        = secctx.data.primitive.replay_window_left_edge + 1
          + leading_ones secctx.data.primitive.replay_window ∧
      secctx'.data.primitive.replay_window
        = (secctx.data.primitive.replay_window
            <<< (leading_ones secctx.data.primitive.replay_window + 1)) % 2 ^ 32 := by
  have hns : ¬ seen secctx.data.primitive (numeric_of r) := by
    rw [heq]; exact not_seen_left_edge _
  have hrun := strikeout_requestid_state secctx r htype hok (by omega)
    (roll_window_clo secctx.data.primitive).replay_window_left_edge
    (roll_window_clo secctx.data.primitive).replay_window
    (roll_window_clo_window_lt _)
    (by
      intro m
      have hform : { secctx.data.primitive with
            replay_window_left_edge :=
              (roll_window_clo secctx.data.primitive).replay_window_left_edge,
            replay_window := (roll_window_clo secctx.data.primitive).replay_window }
          = roll_window_clo secctx.data.primitive := rfl
      rw [hform, seen_roll_window_clo, heq]
      constructor
      · rintro (h | h)
        · exact Or.inl h
        · exact Or.inr (Or.inl h)
      · rintro (h | h | h)
        · exact Or.inl h
        · exact Or.inr h
        · exact Or.inl (Or.inl (by omega)))
  obtain ⟨hlo, hhi, hw⟩ := hok
  refine ⟨_, _, hrun, by simp [hns], roll_window_eq_clo _ (by omega) (by omega) hw, ?_,
    leading_ones_le _, ?_, ?_⟩
  · simp only [primitive_set_primitive]
    rfl
  · simp only [primitive_set_primitive]
    rfl
  · simp only [primitive_set_primitive]
    rfl

/-- C15, evaluated on the code: a context tagged `OSCORE_CONTEXT_B1` whose B.1
data has the counter at 0 and `high_sequence_number = 100` makes
`oscore_context_take_seqno` abort instead of issuing the value 0; and the same
kind of B.1 data with `high_sequence_number = 0`, reached under the one tag the
function serves, is dealt the value 0, which is not below the limit: the function
never reads `high_sequence_number`. -/
theorem take_seqno_b1_not_gated :
    oscore_context_take_seqno (b1_context_with 0 100) (requestid_of_nat 0) = .aborted ∧
    ∃ r',
      oscore_context_take_seqno
        { type := .OSCORE_CONTEXT_PRIMITIVE, data := (b1_context_with 0 0).data }
        (requestid_of_nat 0)
        = .returned (true,
            { type := .OSCORE_CONTEXT_PRIMITIVE, data := (b1_context_with 0 0).data }, r') ∧
      numeric_of r' = 0 :=
  ⟨rfl, { requestid_of_nat 0 with used_bytes := 1, is_first_use := true }, by decide, by decide⟩

/-- C16: for every security context whose type tag is not
`OSCORE_CONTEXT_PRIMITIVE` (the one variant the dispatch recognizes), each of
`oscore_context_get_aeadalg`, `oscore_context_get_kid`,
`oscore_context_get_commoniv`, `oscore_context_get_key`,
`oscore_context_take_seqno` and `oscore_context_strikeout_requestid` ends in the
abort outcome, which carries no value, no output and no context; for a context
tagged `OSCORE_CONTEXT_PRIMITIVE` none of them aborts. -/
theorem dispatch_aborts_iff_unrecognized (secctx : oscore_context_t)
    (role : oscore_context_role) (r : oscore_requestid_t) :
    (secctx.type ≠ .OSCORE_CONTEXT_PRIMITIVE →
      oscore_context_get_aeadalg secctx = .aborted ∧
      oscore_context_get_kid secctx role = .aborted ∧
      oscore_context_get_commoniv secctx = .aborted ∧
      oscore_context_get_key secctx role = .aborted ∧
      oscore_context_take_seqno secctx r = .aborted ∧
      oscore_context_strikeout_requestid secctx r = .aborted) ∧
    (secctx.type = .OSCORE_CONTEXT_PRIMITIVE →
      oscore_context_get_aeadalg secctx ≠ .aborted ∧
      oscore_context_get_kid secctx role ≠ .aborted ∧
      oscore_context_get_commoniv secctx ≠ .aborted ∧
      oscore_context_get_key secctx role ≠ .aborted ∧
      oscore_context_take_seqno secctx r ≠ .aborted ∧
      oscore_context_strikeout_requestid secctx r ≠ .aborted) := by
  constructor
  · intro h
    unfold oscore_context_get_aeadalg oscore_context_get_kid oscore_context_get_commoniv
      oscore_context_get_key oscore_context_take_seqno oscore_context_strikeout_requestid
    cases ht : secctx.type with
    | OSCORE_CONTEXT_PRIMITIVE => exact absurd ht h
    | OSCORE_CONTEXT_B1 => exact ⟨rfl, rfl, rfl, rfl, rfl, rfl⟩
    | unrecognized tag => exact ⟨rfl, rfl, rfl, rfl, rfl, rfl⟩
  · intro h
    unfold oscore_context_get_aeadalg oscore_context_get_kid oscore_context_get_commoniv
      oscore_context_get_key oscore_context_take_seqno oscore_context_strikeout_requestid
    rw [h]
    simp only
    refine ⟨by simp, ?_, by simp, ?_, ?_, ?_⟩
    · split <;> simp
    · split <;> simp
    · split <;> simp
    · cases strikeout_primitive secctx.data.primitive r with
      | none => simp
      | some out => simp

/-- C17, as amended: slide with `1 <= shift <= 31`, where `shift = numeric -
left_edge - 32` is the argument `oscore_context_strikeout_requestid` passes:
`advance_window` advances the left edge by `shift`, shifts the bitmap left by
`shift` bits (zero-filled from the low end), and additionally rolls the window
exactly when bit `32 - shift` of the bitmap before the shift was set: the bit of
the new left edge itself, the last bit shifted out. -/
theorem advance_window_rolls_iff (p : oscore_context_primitive) (r : oscore_requestid_t)
    (hok : window_ok p)
    (h1 : 1 ≤ numeric_of r - p.replay_window_left_edge - 32)
    (h31 : numeric_of r - p.replay_window_left_edge - 32 ≤ 31) :
    ∃ n : Nat,
      n = to_size_t (to_int64 (to_int64 (numeric_of r - p.replay_window_left_edge) - 32)) ∧
      (n : Int) = numeric_of r - p.replay_window_left_edge - 32 ∧
      (slid p n).replay_window_left_edge = p.replay_window_left_edge + n ∧
      (slid p n).replay_window = (p.replay_window <<< n) % 2 ^ 32 ∧
      (p.replay_window.testBit (32 - n) = false → advance_window p n = some (slid p n)) ∧
      (p.replay_window.testBit (32 - n) = true →
        advance_window p n = roll_window (slid p n) ∧
        ∃ p', roll_window (slid p n) = some p' ∧
          (slid p n).replay_window_left_edge < p'.replay_window_left_edge) ∧
      (advance_window p n = roll_window (slid p n) ↔ p.replay_window.testBit (32 - n) = true) := by
  obtain ⟨hlo, hhi, hw⟩ := hok
  obtain ⟨hn0, hn1⟩ := numeric_of_bounds r
  have hns : to_int64 (to_int64 (numeric_of r - p.replay_window_left_edge) - 32)
      = numeric_of r - p.replay_window_left_edge - 32 := by
    rw [to_int64_eq (numeric_of r - p.replay_window_left_edge) (by omega) (by omega),
      to_int64_eq _ (by omega) (by omega)]
  refine ⟨_, rfl, ?_⟩
  rw [hns]
  generalize hn : to_size_t (numeric_of r - p.replay_window_left_edge - 32) = n
  have hcast : (n : Int) = numeric_of r - p.replay_window_left_edge - 32 := by
    rw [← hn]; unfold to_size_t; omega
  have hL : to_int64 (p.replay_window_left_edge + n) = p.replay_window_left_edge + n :=
    to_int64_eq _ (by omega) (by omega)
  have hmask : to_uint32 (1 <<< (32 - n)) = 2 ^ (32 - n) :=
    to_uint32_one_shiftLeft _ (by omega)
  have hn32 : n < 32 := by omega
  have hroll := roll_window_total (slid p n) (to_uint32_lt _)
  obtain ⟨p', _, _, hrun, _, _, _, _⟩ := hroll
  obtain ⟨p2, hrun2, hlt, _⟩ := roll_window_spec (slid p n) 33 (by omega) (by omega)
    (by unfold slid; simp only; omega) (by unfold slid; simp only; omega) (to_uint32_lt _)
    (by intro i hi; omega)
  have hno : p.replay_window.testBit (32 - n) = false → advance_window p n = some (slid p n) := by
    intro hb
    unfold advance_window
    simp only [hL, hmask, shl_uint32_of_lt _ _ hn32]
    rw [if_neg (by omega)]
    have : ¬ p.replay_window &&& 2 ^ (32 - n) ≠ 0 := fun h => by
      rw [(and_two_pow_ne_zero_iff _ _).1 h] at hb
      exact absurd hb (by decide)
    rw [decide_eq_false this, if_neg (by decide)]
    rfl
  have hyes : p.replay_window.testBit (32 - n) = true →
      advance_window p n = roll_window (slid p n) := by
    intro hb
    unfold advance_window
    simp only [hL, hmask, shl_uint32_of_lt _ _ hn32]
    rw [if_neg (by omega)]
    rw [decide_eq_true ((and_two_pow_ne_zero_iff _ _).2 hb), if_pos rfl]
    rfl
  refine ⟨hcast, rfl, ?_, hno, fun hb => ⟨hyes hb, p2, hrun2, hlt⟩, ?_⟩
  · unfold slid to_uint32
    norm_num
  · constructor
    · intro h
      by_contra hb
      have hb' : p.replay_window.testBit (32 - n) = false := by simpa using hb
      rw [hno hb', hrun2] at h
      have : slid p n = p2 := Option.some.inj h
      rw [this] at hlt
      exact lt_irrefl _ hlt
    · exact hyes

/-- C17, as stated, fails: with the left edge at 0, only bit 30 of the bitmap set
and a shift of 1, bit `31 - shift` is set, and `advance_window` does not roll: it
returns the slid state, which differs from the rolled one. -/
theorem advance_window_no_roll_on_bit_30 :
    (primitive_with 0 0 1073741824).replay_window.testBit (31 - 1) = true ∧
    advance_window (primitive_with 0 0 1073741824) 1
      = some (slid (primitive_with 0 0 1073741824) 1) ∧
    advance_window (primitive_with 0 0 1073741824) 1
      ≠ roll_window (slid (primitive_with 0 0 1073741824) 1) := by
  decide

set_option maxRecDepth 100000 in
/-- C18, evaluated on the code: with the left edge at 0 and the bitmap
`0xffffffff`, the number 64 is `left_edge + 64`; `oscore_context_strikeout_requestid`
returns with `is_first_use = false`, the left edge at 65 (neither `left_edge + 32`
nor `left_edge + 33`) and an empty bitmap, in which the bit of 64 is not set: the
shift by 32 has left all 32 bits of the old bitmap in place, and the roll has run
over them. -/
theorem strikeout_jump_64_keeps_old_bits :
    numeric_of (requestid_of_nat 64)
      = (context_with 0 0 4294967295).data.primitive.replay_window_left_edge + 64 ∧
    (context_with 0 0 4294967295).data.primitive.replay_window.testBit 0 = true ∧
    ∃ secctx' r',
      oscore_context_strikeout_requestid (context_with 0 0 4294967295) (requestid_of_nat 64)
        = .returned (secctx', r') ∧
      r'.is_first_use = false ∧
      secctx'.data.primitive.replay_window_left_edge = 65 ∧
      secctx'.data.primitive.replay_window = 0 :=
  ⟨by decide, by decide, context_with 0 65 0, requestid_of_nat 64, by decide, by decide,
    by decide, by decide⟩

/-- Every number a window reached by `strikeout_all` records is at most
`2^40 - 1`, when that holds at the start. -/
theorem strikeout_all_bounded (ids : List oscore_requestid_t) :
    ∀ (secctx : oscore_context_t),
      secctx.type = .OSCORE_CONTEXT_PRIMITIVE → window_ok secctx.data.primitive →
      (∀ m, seen secctx.data.primitive m → m ≤ 1099511627775) →
      ∃ secctx' outs,
        strikeout_all secctx ids = .returned (secctx', outs) ∧
        secctx'.type = .OSCORE_CONTEXT_PRIMITIVE ∧
        window_ok secctx'.data.primitive ∧
        ∀ m, seen secctx'.data.primitive m → m ≤ 1099511627775 := by
  induction ids with
  | nil =>
    intro secctx htype hok hbound
    exact ⟨secctx, [], rfl, htype, hok, hbound⟩
  | cons r rest ih =>
    intro secctx htype hok hbound
    obtain ⟨s1, r1, hrun, ht1, hok1, _, _, _, _, _, _, hupper⟩ :=
      strikeout_requestid_weak secctx r htype hok
    obtain ⟨s2, outs, hrun2, ht2, hok2, hb2⟩ := ih s1 ht1 hok1
      (by
        intro m hm
        rcases hupper m hm with h | h
        · exact hbound m h
        · have := (numeric_of_bounds r).2
          omega)
    refine ⟨s2, r1 :: outs, ?_, ht2, hok2, hb2⟩
    simp only [strikeout_all, hrun, Outcome.bind_returned, hrun2]

/-- C19: no overflow: every 5-byte request id decodes to a value in
`[0, 2^40 - 1]`; in every window state reached from the fresh window
(`left_edge = 0`, bitmap 0) by `oscore_context_strikeout_requestid` calls,
`0 <= left_edge <= 2^40` and every marked number is `<= 2^40 - 1`; so for every
request id presented next, `numeric - left_edge` and `numeric - left_edge - 32`
lie within the signed 64-bit range, the 64-bit computation of `necessary_shift`
gives the exact difference, and the call returns with the left edge again in
`[0, 2^40]`. -/
theorem strikeout_no_overflow (secctx : oscore_context_t) (ids : List oscore_requestid_t)
    (r : oscore_requestid_t)
    (htype : secctx.type = .OSCORE_CONTEXT_PRIMITIVE)
    (hedge : secctx.data.primitive.replay_window_left_edge = 0)
    (hwindow : secctx.data.primitive.replay_window = 0) :
    0 ≤ numeric_of r ∧ numeric_of r ≤ 2 ^ 40 - 1 ∧
    ∃ s outs,
      strikeout_all secctx ids = .returned (s, outs) ∧
      0 ≤ s.data.primitive.replay_window_left_edge ∧
      s.data.primitive.replay_window_left_edge ≤ 2 ^ 40 ∧
      (∀ m, s.data.primitive.replay_window_left_edge < m →
        m ≤ s.data.primitive.replay_window_left_edge + 32 →
        s.data.primitive.replay_window.testBit
          (31 - (m - s.data.primitive.replay_window_left_edge - 1)).toNat = true →
        m ≤ 2 ^ 40 - 1) ∧
      -(2 ^ 63) ≤ numeric_of r - s.data.primitive.replay_window_left_edge - 32 ∧
      numeric_of r - s.data.primitive.replay_window_left_edge < 2 ^ 63 ∧
      to_int64 (numeric_of r - s.data.primitive.replay_window_left_edge)
        = numeric_of r - s.data.primitive.replay_window_left_edge ∧
      to_int64 (to_int64 (numeric_of r - s.data.primitive.replay_window_left_edge) - 32)
        = numeric_of r - s.data.primitive.replay_window_left_edge - 32 ∧
      ∃ s' r',
        oscore_context_strikeout_requestid s r = .returned (s', r') ∧
        s.data.primitive.replay_window_left_edge
          ≤ s'.data.primitive.replay_window_left_edge ∧
        s'.data.primitive.replay_window_left_edge ≤ 2 ^ 40 := by
  obtain ⟨hn0, hn1⟩ := numeric_of_bounds r
  refine ⟨hn0, by norm_num; omega, ?_⟩
  obtain ⟨s, outs, hrun, ht, hok, hb⟩ := strikeout_all_bounded ids secctx htype
    (window_ok_fresh _ hedge hwindow)
    (by
      intro m hm
      have := (seen_fresh _ hedge hwindow m).1 hm
      omega)
  have hL : s.data.primitive.replay_window_left_edge ≤ 1099511627776 := by
    by_contra h
    have := hb 1099511627776 (Or.inl (by omega))
    omega
  obtain ⟨s', r', hrun', _, _, _, hmono, _, _, _, _, hupper⟩ :=
    strikeout_requestid_weak s r ht hok
  have hL' : s'.data.primitive.replay_window_left_edge ≤ 1099511627776 := by
    by_contra h
    have hs : seen s'.data.primitive 1099511627776 := Or.inl (by omega)
    rcases hupper _ hs with h1 | h1
    · have := hb _ h1
      omega
    · omega
  have hlo := hok.1
  refine ⟨s, outs, hrun, hlo, by norm_num; exact hL, ?_, by norm_num; omega, by norm_num; omega,
    to_int64_eq _ (by omega) (by omega), ?_, s', r', hrun', hmono, by norm_num; exact hL'⟩
  · intro m h1 h2 h3
    have := hb m (Or.inr ⟨h1, h2, h3⟩)
    norm_num
    omega
  · rw [to_int64_eq (numeric_of r - s.data.primitive.replay_window_left_edge) (by omega)
      (by omega), to_int64_eq _ (by omega) (by omega)]

/-- C20: `roll_window` terminates for every window state with a 32-bit bitmap,
whatever the left edge: its loop body runs `1 + leading_ones` times, which is at
least once and at most 33 times, every larger bound on the iterations gives the
same result, and `oscore_context_strikeout_requestid` returns for every such
state and every request id. -/
theorem roll_window_terminates (secctx : oscore_context_t) (r : oscore_requestid_t)
    (htype : secctx.type = .OSCORE_CONTEXT_PRIMITIVE)
    (hw : secctx.data.primitive.replay_window < 2 ^ 32) :
    (∃ ctx' n,
      roll_window_loop_count ROLL_FUEL true secctx.data.primitive = some (ctx', n) ∧
      roll_window secctx.data.primitive = some ctx' ∧
      n = 1 + leading_ones secctx.data.primitive.replay_window ∧
      1 ≤ n ∧ n ≤ 33 ∧
      ∀ fuel, ROLL_FUEL ≤ fuel →
        roll_window_loop_count fuel true secctx.data.primitive = some (ctx', n)) ∧
    ∃ out, oscore_context_strikeout_requestid secctx r = .returned out := by
  have hw' : secctx.data.primitive.replay_window < 4294967296 := by
    norm_num at hw; exact hw
  constructor
  · obtain ⟨ctx', n, h1, h2, h3, h4, _, h6⟩ := roll_window_total secctx.data.primitive hw'
    exact ⟨ctx', n, h1, h2, by omega, by omega, h4, h6⟩
  · obtain ⟨out, hout⟩ := strikeout_primitive_total secctx.data.primitive r hw'
    unfold oscore_context_strikeout_requestid
    rw [htype]
    simp only [hout]
    exact ⟨_, rfl⟩

/-! ## Witnesses of the further claims -/

theorem strikeout_burst_40_left_edge_witness :
    (context_with 0 0 0).data.primitive.replay_window_left_edge = 0 ∧
    (context_with 0 0 0).data.primitive.replay_window = 0 ∧
    ∃ secctx' outs,
      strikeout_all (context_with 0 0 0) (burst 40) = .returned (secctx', outs) ∧
      secctx'.data.primitive.replay_window_left_edge = 41 ∧
      secctx'.data.primitive.replay_window = 0 :=
  ⟨rfl, rfl, strikeout_burst_40_left_edge (context_with 0 0 0) rfl rfl rfl⟩

/-- The value 5 presented to the fresh window and once more to the window that
call leaves (bit 27 set): first use, then duplicate, the left edge 0 both
times. -/
theorem strikeout_inside_window_witness :
    (window_ok (context_with 0 0 0).data.primitive ∧
     ∃ secctx' r',
      oscore_context_strikeout_requestid (context_with 0 0 0) (requestid_of_nat 5)
        = .returned (secctx', r') ∧
      secctx'.data.primitive.replay_window_left_edge = 0 ∧
      secctx'.data.primitive.replay_window.testBit 27 = true ∧
      r'.is_first_use = true) ∧
    (window_ok (context_with 0 0 134217728).data.primitive ∧
     ∃ secctx' r',
      oscore_context_strikeout_requestid (context_with 0 0 134217728) (requestid_of_nat 5)
        = .returned (secctx', r') ∧
      secctx'.data.primitive.replay_window_left_edge = 0 ∧
      secctx'.data.primitive.replay_window.testBit 27 = true ∧
      r'.is_first_use = false) := by
  refine ⟨⟨by decide, ?_⟩, ⟨by decide, ?_⟩⟩
  · obtain ⟨s, r', h1, h2, _, h4, h5⟩ := strikeout_inside_window (context_with 0 0 0)
      (requestid_of_nat 5) rfl (by decide) (by decide) (by decide)
    exact ⟨s, r', h1, h2, h4, h5.2 (by decide)⟩
  · obtain ⟨s, r', h1, h2, _, h4, h5⟩ := strikeout_inside_window (context_with 0 0 134217728)
      (requestid_of_nat 5) rfl (by decide) (by decide) (by decide)
    refine ⟨s, r', h1, h2, h4, ?_⟩
    cases hf : r'.is_first_use
    · rfl
    · exact absurd (h5.1 hf) (by decide)

theorem strikeout_large_jump_witness :
    window_ok (context_with 0 10 4026531840).data.primitive ∧
    numeric_of (requestid_of_nat 1010)
      > (context_with 0 10 4026531840).data.primitive.replay_window_left_edge + 64 ∧
    ∃ secctx' r',
      oscore_context_strikeout_requestid (context_with 0 10 4026531840)
        (requestid_of_nat 1010) = .returned (secctx', r') ∧
      secctx'.data.primitive.replay_window_left_edge = numeric_of (requestid_of_nat 1010) - 32 ∧
      secctx'.data.primitive.replay_window = 1 ∧
      r'.is_first_use = true :=
  ⟨by decide, by decide,
   strikeout_large_jump (context_with 0 10 4026531840) (requestid_of_nat 1010) rfl
     (by decide) (by decide)⟩

/-- The value 0 presented to the fresh window: first use, and the left edge
becomes 1. -/
theorem strikeout_edge_value_witness :
    window_ok (context_with 0 0 0).data.primitive ∧
    numeric_of (requestid_of_nat 0)
      = (context_with 0 0 0).data.primitive.replay_window_left_edge ∧
    ∃ secctx' r',
      oscore_context_strikeout_requestid (context_with 0 0 0) (requestid_of_nat 0)
        = .returned (secctx', r') ∧
      r'.is_first_use = true ∧
      secctx'.data.primitive.replay_window_left_edge = 1 ∧
      secctx'.data.primitive.replay_window = 0 := by
  refine ⟨by decide, by decide, ?_⟩
  obtain ⟨s, r', h1, h2, _, _, _, h6, h7⟩ := strikeout_edge_value (context_with 0 0 0)
    (requestid_of_nat 0) rfl (by decide) (by decide)
  exact ⟨s, r', h1, h2, by rw [h6]; decide, by rw [h7]; decide⟩

theorem dispatch_aborts_iff_unrecognized_witness :
    ({ type := .unrecognized 7, data := (context_with 0 0 0).data } : oscore_context_t).type
      ≠ .OSCORE_CONTEXT_PRIMITIVE ∧
    oscore_context_take_seqno { type := .unrecognized 7, data := (context_with 0 0 0).data }
      (requestid_of_nat 0) = .aborted ∧
    oscore_context_strikeout_requestid
      { type := .unrecognized 7, data := (context_with 0 0 0).data }
      (requestid_of_nat 0) = .aborted ∧
    oscore_context_strikeout_requestid (context_with 0 0 0) (requestid_of_nat 0) ≠ .aborted := by
  have h := dispatch_aborts_iff_unrecognized
    { type := .unrecognized 7, data := (context_with 0 0 0).data }
    .OSCORE_ROLE_SENDER (requestid_of_nat 0)
  have h' := dispatch_aborts_iff_unrecognized (context_with 0 0 0)
    .OSCORE_ROLE_SENDER (requestid_of_nat 0)
  exact ⟨by decide, (h.1 (by decide)).2.2.2.2.1, (h.1 (by decide)).2.2.2.2.2,
    (h'.2 rfl).2.2.2.2.2⟩

/-- A slide by 1 with bit 31 set: `advance_window` rolls. -/
theorem advance_window_rolls_iff_witness :
    window_ok (primitive_with 0 0 2147483648) ∧
    (1 : Int) ≤ numeric_of (requestid_of_nat 33)
      - (primitive_with 0 0 2147483648).replay_window_left_edge - 32 ∧
    ∃ n : Nat,
      (n : Int) = 1 ∧
      advance_window (primitive_with 0 0 2147483648) n
        = roll_window (slid (primitive_with 0 0 2147483648) n) := by
  refine ⟨by decide, by decide, ?_⟩
  obtain ⟨n, _, h2, _, _, _, h6, _⟩ := advance_window_rolls_iff (primitive_with 0 0 2147483648)
    (requestid_of_nat 33) (by decide) (by decide) (by decide)
  have hn : n = 1 := by
    have : numeric_of (requestid_of_nat 33)
        - (primitive_with 0 0 2147483648).replay_window_left_edge - 32 = 1 := by decide
    rw [this] at h2
    exact_mod_cast h2
  subst hn
  exact ⟨1, rfl, (h6 (by decide)).1⟩

theorem strikeout_no_overflow_witness :
    (context_with 0 0 0).data.primitive.replay_window_left_edge = 0 ∧
    (context_with 0 0 0).data.primitive.replay_window = 0 ∧
    ∃ s outs,
      strikeout_all (context_with 0 0 0)
        [requestid_of_nat 31, requestid_of_nat 64, requestid_of_nat 1099511627775] = .returned (s, outs) ∧
      0 ≤ s.data.primitive.replay_window_left_edge ∧
      s.data.primitive.replay_window_left_edge ≤ 2 ^ 40 ∧
      to_int64 (to_int64 (numeric_of (requestid_of_nat 0)
          - s.data.primitive.replay_window_left_edge) - 32)
        = numeric_of (requestid_of_nat 0) - s.data.primitive.replay_window_left_edge - 32 := by
  refine ⟨rfl, rfl, ?_⟩
  obtain ⟨_, _, s, outs, h1, h2, h3, _, _, _, _, h8, _⟩ := strikeout_no_overflow
    (context_with 0 0 0) [requestid_of_nat 31, requestid_of_nat 64, requestid_of_nat 1099511627775]
    (requestid_of_nat 0) rfl rfl rfl
  exact ⟨s, outs, h1, h2, h3, h8⟩

/-- The bitmap of 32 ones: the loop body of `roll_window` runs 33 times. -/
theorem roll_window_terminates_witness :
    (context_with 0 0 4294967295).data.primitive.replay_window < 2 ^ 32 ∧
    (∃ ctx',
      roll_window_loop_count ROLL_FUEL true (context_with 0 0 4294967295).data.primitive
        = some (ctx', 33)) ∧
    ∃ out,
      oscore_context_strikeout_requestid (context_with 0 0 4294967295) (requestid_of_nat 0)
        = .returned out := by
  refine ⟨by decide, ?_⟩
  obtain ⟨⟨ctx', n, h1, _, h3, _, _, _⟩, hout⟩ := roll_window_terminates
    (context_with 0 0 4294967295) (requestid_of_nat 0) rfl (by decide)
  have hn : n = 33 := by
    rw [h3]
    decide
  rw [hn] at h1
  exact ⟨⟨ctx', h1⟩, hout⟩

/-! ## The recorded set, as a set -/

theorem mem_Seen_iff (ctx : oscore_context_primitive) (m : Int) : m ∈ Seen ctx ↔ seen ctx m := by
  unfold Seen seen
  simp only [Set.mem_union, Set.mem_setOf_eq]
  constructor
  · rintro (h | ⟨k, hk, hm, hb⟩)
    · exact Or.inl h
    · refine Or.inr ⟨by omega, by omega, ?_⟩
      have hidx : (31 - (m - ctx.replay_window_left_edge - 1)).toNat = 31 - k := by omega
      rw [hidx]; exact hb
  · rintro (h | ⟨h1, h2, hb⟩)
    · exact Or.inl h
    · refine Or.inr ⟨(m - ctx.replay_window_left_edge - 1).toNat, by omega, by omega, ?_⟩
      have hidx : 31 - (m - ctx.replay_window_left_edge - 1).toNat
          = (31 - (m - ctx.replay_window_left_edge - 1)).toNat := by omega
      rw [hidx]; exact hb

/-- C21, evaluated on the code: with the left edge at 0 and only bit 1 of the
bitmap set (the number 31 used), the call of `oscore_context_strikeout_requestid`
with the number 64 ends with the left edge at 32 and the bitmap 3, so that
`Seen` of the new state holds 63, which was not in `Seen` before, is not the
number presented and is not below `64 - 32`: the equation
`Seen(s') = Seen(s) ∪ {numeric} ∪ {m | m < numeric - 32}` fails. -/
theorem strikeout_64_records_unpresented_63 :
    ∃ secctx' r',
      oscore_context_strikeout_requestid (context_with 0 0 2) (requestid_of_nat 64)
        = .returned (secctx', r') ∧
      secctx'.data.primitive.replay_window_left_edge = 32 ∧
      secctx'.data.primitive.replay_window = 3 ∧
      (63 : Int) ∈ Seen secctx'.data.primitive ∧
      (63 : Int) ∉ Seen (context_with 0 0 2).data.primitive
        ∪ {numeric_of (requestid_of_nat 64)}
        ∪ {m | m < numeric_of (requestid_of_nat 64) - 32} ∧
      Seen secctx'.data.primitive
        ≠ Seen (context_with 0 0 2).data.primitive
          ∪ {numeric_of (requestid_of_nat 64)}
          ∪ {m | m < numeric_of (requestid_of_nat 64) - 32} := by
  have hin : (63 : Int) ∈ Seen (context_with 0 32 3).data.primitive := by
    rw [mem_Seen_iff]
    decide
  have hout : (63 : Int) ∉ Seen (context_with 0 0 2).data.primitive
      ∪ {numeric_of (requestid_of_nat 64)}
      ∪ {m | m < numeric_of (requestid_of_nat 64) - 32} := by
    simp only [Set.mem_union, Set.mem_singleton_iff, Set.mem_setOf_eq, mem_Seen_iff]
    decide
  refine ⟨context_with 0 32 3, { requestid_of_nat 64 with is_first_use := true }, by decide,
    by decide, by decide, hin, hout, ?_⟩
  intro heq
  rw [heq] at hin
  exact hout hin

/-! ## Shift counts -/

theorem roll_window_shifts_mem (fuel : Nat) :
    ∀ (b : Bool) (ctx : oscore_context_primitive) (c : Int),
      c ∈ roll_window_shifts fuel b ctx → c = 31 ∨ c = 1 := by
  induction fuel with
  | zero => intro b ctx c h; simp [roll_window_shifts] at h
  | succ f ih =>
    intro b ctx c h
    cases b
    · simp [roll_window_shifts] at h
    · rw [roll_window_shifts, if_pos rfl] at h
      rcases List.mem_cons.1 h with h | h
      · exact Or.inl h
      · rcases List.mem_cons.1 h with h | h
        · exact Or.inr h
        · exact ih _ _ _ h

/-- The shift counts of `advance_window` for `n >= 1` lie in `[0, 32]`, and the
count 32 is among them exactly for `n = 32`. -/
theorem advance_window_shifts_range (ctx : oscore_context_primitive) (n : Nat) (hn : 1 ≤ n) :
    (∀ c ∈ advance_window_shifts ctx n, 0 ≤ c ∧ c ≤ 32) ∧
    ((32 : Int) ∈ advance_window_shifts ctx n ↔ n = 32) := by
  unfold advance_window_shifts
  simp only
  by_cases hbig : n > 32
  · rw [if_pos hbig]
    refine ⟨by simp, ?_⟩
    constructor
    · intro h
      simp at h
    · intro h
      omega
  · rw [if_neg hbig]
    have hroll : ∀ c ∈ (if decide (ctx.replay_window &&& to_uint32 (1 <<< (32 - n)) ≠ 0) = true
        then roll_window_shifts ROLL_FUEL true
          { ctx with
            replay_window_left_edge := to_int64 (ctx.replay_window_left_edge + n),
            replay_window := shl_uint32 ctx.replay_window n }
        else []), c = 31 ∨ c = 1 := by
      intro c hc
      split at hc
      · exact roll_window_shifts_mem _ _ _ _ hc
      · simp at hc
    constructor
    · intro c hc
      rcases List.mem_cons.1 hc with h | h
      · rw [h]; omega
      · rcases List.mem_cons.1 h with h | h
        · rw [h]; omega
        · rcases hroll c h with h | h <;> omega
    · constructor
      · intro hc
        rcases List.mem_cons.1 hc with h | h
        · omega
        · rcases List.mem_cons.1 h with h | h
          · omega
          · rcases hroll _ h with h | h <;> omega
      · intro h32
        apply List.mem_cons_of_mem
        apply List.mem_cons.2
        left
        rw [h32]
        rfl

theorem append_shifts_range (slide tail : List Int)
    (hs : ∀ c ∈ slide, 0 ≤ c ∧ c ≤ 32) (ht : ∀ c ∈ tail, 0 ≤ c ∧ c ≤ 31) :
    (∀ c ∈ slide ++ tail, 0 ≤ c ∧ c ≤ 32) ∧ ((32 : Int) ∈ slide ++ tail ↔ (32 : Int) ∈ slide) := by
  constructor
  · intro c hc
    rcases List.mem_append.1 hc with h | h
    · exact hs c h
    · have := ht c h
      omega
  · constructor
    · intro hc
      rcases List.mem_append.1 hc with h | h
      · exact h
      · have := ht _ h
        omega
    · intro h
      exact List.mem_append.2 (Or.inl h)

/-- The shift counts of one `strikeout_primitive` call lie in `[0, 32]`, and the
count 32, which is the width of the window, is among them exactly when
`numeric = left_edge + 64`, where `advance_window` is entered with `n = 32`. -/
theorem strikeout_shifts_range (p : oscore_context_primitive) (r : oscore_requestid_t)
    (hok : window_ok p) :
    (∀ c ∈ strikeout_shifts p r, 0 ≤ c ∧ c ≤ 32) ∧
    ((32 : Int) ∈ strikeout_shifts p r ↔ numeric_of r = p.replay_window_left_edge + 64) := by
  obtain ⟨hlo, hhi, hw⟩ := hok
  obtain ⟨hn0, hn1⟩ := numeric_of_bounds r
  have hns : to_int64 (to_int64 (numeric_of r - p.replay_window_left_edge) - 32)
      = numeric_of r - p.replay_window_left_edge - 32 := by
    rw [to_int64_eq (numeric_of r - p.replay_window_left_edge) (by omega) (by omega),
      to_int64_eq _ (by omega) (by omega)]
  have htail : ∀ (slide : List Int) (p1 : oscore_context_primitive),
      (∀ c ∈ slide, 0 ≤ c ∧ c ≤ 32) →
      0 ≤ p1.replay_window_left_edge → p1.replay_window_left_edge < 4611686018427387944 →
      numeric_of r ≤ p1.replay_window_left_edge + 32 →
      (∀ c ∈ (if numeric_of r < p1.replay_window_left_edge then slide
          else if numeric_of r = p1.replay_window_left_edge then
            slide ++ roll_window_shifts ROLL_FUEL true p1
          else slide ++
            [to_int64 (32 - to_int64 (numeric_of r - p1.replay_window_left_edge))]),
        0 ≤ c ∧ c ≤ 32) ∧
      ((32 : Int) ∈ (if numeric_of r < p1.replay_window_left_edge then slide
          else if numeric_of r = p1.replay_window_left_edge then
            slide ++ roll_window_shifts ROLL_FUEL true p1
          else slide ++
            [to_int64 (32 - to_int64 (numeric_of r - p1.replay_window_left_edge))])
        ↔ (32 : Int) ∈ slide) := by
    intro slide p1 hs h0 h1 hle
    by_cases c1 : numeric_of r < p1.replay_window_left_edge
    · rw [if_pos c1]
      exact ⟨hs, Iff.rfl⟩
    · rw [if_neg c1]
      by_cases c2 : numeric_of r = p1.replay_window_left_edge
      · rw [if_pos c2]
        apply append_shifts_range _ _ hs
        intro c hc
        rcases roll_window_shifts_mem _ _ _ _ hc with h | h <;> omega
      · rw [if_neg c2]
        apply append_shifts_range _ _ hs
        intro c hc
        rw [List.mem_singleton] at hc
        rw [to_int64_eq (numeric_of r - p1.replay_window_left_edge) (by omega) (by omega),
          to_int64_eq _ (by omega) (by omega)] at hc
        omega
  unfold strikeout_shifts
  simp only [hns]
  by_cases hshift : numeric_of r - p.replay_window_left_edge - 32 ≥ 1
  · rw [if_pos hshift, if_pos hshift]
    have hn : ((to_size_t (numeric_of r - p.replay_window_left_edge - 32) : Nat) : Int)
        = numeric_of r - p.replay_window_left_edge - 32 := by
      unfold to_size_t; omega
    obtain ⟨p1, hadv, g1, g2, _⟩ := advance_window_weak p
      (to_size_t (numeric_of r - p.replay_window_left_edge - 32))
      (by omega) (by omega) (by omega) hw
    rw [hn] at g1 g2
    rw [hadv]
    simp only
    obtain ⟨hr1, hr2⟩ := advance_window_shifts_range p
      (to_size_t (numeric_of r - p.replay_window_left_edge - 32)) (by omega)
    obtain ⟨t1, t2⟩ := htail _ p1 hr1 (by omega) (by omega) (by omega)
    refine ⟨t1, ?_⟩
    rw [t2, hr2]
    omega
  · rw [if_neg hshift, if_neg hshift]
    simp only
    obtain ⟨t1, t2⟩ := htail [] p (by simp) hlo (by omega) (by omega)
    refine ⟨t1, ?_⟩
    rw [t2]
    constructor
    · intro h
      simp at h
    · intro h
      omega

/-- C22, evaluated on the code: on the fresh window (`left_edge = 0`, bitmap 0) the
request id of the value 64 makes `oscore_context_strikeout_requestid` enter
`advance_window` with `n = 32`; the shifts applied to 32-bit values have the
counts 0 (the mask `1 << (32 - n)`), 32 (`replay_window <<= n`) and 0 (the mask of
`numeric`): the count 32 is not in `[0, 31]`. -/
theorem strikeout_shift_count_32 :
    window_ok (primitive_with 0 0 0) ∧
    strikeout_shifts (primitive_with 0 0 0) (requestid_of_nat 64) = [0, 32, 0] ∧
    ¬ ∀ c ∈ strikeout_shifts (primitive_with 0 0 0) (requestid_of_nat 64), 0 ≤ c ∧ c ≤ 31 := by
  refine ⟨by decide, by decide, ?_⟩
  intro h
  have h32 : (32 : Int) ∈ strikeout_shifts (primitive_with 0 0 0) (requestid_of_nat 64) := by
    decide
  have := h 32 h32
  omega

end Oscore
